import Mathlib

/-!
Verification of the AntiLearn leave-optimization engine.

This file gives a shallow embedding, in Lean 4, of the core engine found in
the repository (the combined application script): the Gregorian calendar
helpers, UK bank-holiday generation with substitute days, the day-type
classifier, the continuous-leave block expanders, candidate generation and
pruning, the bounded 3-block combination solver, and the insight and
year-comparison layers.

Modelling conventions:
* A calendar date is its day number: the integer offset from 0001-01-01
  (proleptic Gregorian), so date-string equality and ordering in the source
  (YYYY-MM-DD strings, Date objects) become integer equality and ordering.
  toLocalISOString is therefore the identity in this model.
* JavaScript numbers are modelled as Nat / Int; the efficiency and score
  values (float divisions in the source) are modelled as exact rationals.
* The unbounded while loops of the source (skipping to a workday, consuming
  leave days, expanding a range) are modelled with an explicit fuel
  parameter, since they have no a-priori bound for adversarial holiday or
  booked configurations.  Theorems quantify over the fuel or use a fuel
  that provably suffices on the concrete inputs.
* The mutable per-year caches of the source (dayTypeCache, booked indices,
  holiday cache, insight caches) are pure recomputations here; the cache
  arrays are modelled as the lists the source builds, and the cache-hit
  path is proved equal to direct recomputation where a claim needs it.
-/

/-! ## Calendar arithmetic (Gregorian, day-level; models the JS Date usage) -/

/-- Gregorian leap-year test (what `new Date(year, 1, 29)` checks in the source). -/
def isLeapYear (y : Nat) : Bool :=
  (y % 4 == 0 && y % 100 != 0) || y % 400 == 0

/-- Number of days in a year, as the source computes it for the cache size. -/
def daysInYear (y : Nat) : Nat := if isLeapYear y then 366 else 365

/-- Days in the months strictly before 1-based month `m` of year `y`. -/
def daysBeforeMonth (y : Nat) (m : Nat) : Nat :=
  let leapAdd := if isLeapYear y then 1 else 0
  match m with
  | 1 => 0
  | 2 => 31
  | 3 => 59 + leapAdd
  | 4 => 90 + leapAdd
  | 5 => 120 + leapAdd
  | 6 => 151 + leapAdd
  | 7 => 181 + leapAdd
  | 8 => 212 + leapAdd
  | 9 => 243 + leapAdd
  | 10 => 273 + leapAdd
  | 11 => 304 + leapAdd
  | 12 => 334 + leapAdd
  | _ => 365 + leapAdd

/-- Day number of January 1 of year `y`: days since 0001-01-01. -/
def jan1Rd (y : Nat) : Int :=
  (365 * (y - 1) + (y - 1) / 4 - (y - 1) / 100 + (y - 1) / 400 : Nat)

/-- Day number of the date `y-m-d` (month 1-based, day 1-based). -/
def toRd (y m d : Nat) : Int :=
  jan1Rd y + daysBeforeMonth y m + (d : Int) - 1

/-- Day of week of a day number, with the JS `getDay` convention:
0 = Sunday, 1 = Monday, ..., 6 = Saturday. -/
def dow (r : Int) : Int := (r + 1) % 7

/-- Day number of day-offset `i` (0-based from January 1) of year `y`;
this is the translation `new Date(year, 0, 1); d.setDate(d.getDate() + i)`. -/
def dateOfIdx (y : Nat) (i : Int) : Int := jan1Rd y + i

/-- Year of a day number (models `date.getFullYear()`): a divisor-based guess
into the 146097-day Gregorian cycle, corrected by at most one year. -/
def yearOfRd (r : Int) : Nat :=
  if r < 0 then 0
  else
    let n := r.toNat
    let g := 400 * n / 146097 + 1
    if (n : Int) < jan1Rd g then g - 1
    else if jan1Rd (g + 1) ≤ (n : Int) then g + 1
    else g

example : toRd 2023 1 1 = 738520 := by decide
example : dow (toRd 2023 1 1) = 0 := by decide
example : dow (toRd 2023 4 7) = 5 := by decide
example : yearOfRd (toRd 2023 1 1) = 2023 := by decide
example : yearOfRd (toRd 2023 1 1 - 1) = 2022 := by decide
example : yearOfRd (toRd 2023 12 31) = 2023 := by decide
example : yearOfRd (toRd 2024 12 31) = 2024 := by decide

/-! ## Regions, weekend patterns, holidays -/

/-- The five configured locations (REGIONS / LOCATION_CONFIG in the source). -/
inductive Region where
  | englandWales
  | scotland
  | northernIreland
  | qatar
  | uae
deriving DecidableEq, Repr

/-- Holiday source of a location (LOCATION_CONFIG.holidaySource). -/
def holidaySource (r : Region) : String :=
  match r with
  | .englandWales => "uk"
  | .scotland => "uk"
  | .northernIreland => "uk"
  | .qatar => "dataset"
  | .uae => "dataset"

/-- Country code of a location (LOCATION_CONFIG.countryCode). -/
def countryCode (r : Region) : String :=
  match r with
  | .englandWales => "GB"
  | .scotland => "GB"
  | .northernIreland => "GB"
  | .qatar => "QA"
  | .uae => "AE"

/-- Whether a location relies on the holiday dataset (isDatasetLocation). -/
def isDatasetLocation (r : Region) : Bool := holidaySource r == "dataset"

/-- The two weekend presets (WEEKEND_PRESETS). -/
inductive WPat where
  | satSun
  | friSat
deriving DecidableEq, Repr

/-- Weekday indices of a weekend preset (WEEKEND_PRESETS[k].days). -/
def WPat.days : WPat → List Int
  | .satSun => [6, 0]
  | .friSat => [5, 6]

/-- A holiday entry: a date (as day number, standing for the YYYY-MM-DD
string) and a display name. -/
structure Holiday where
  date : Int
  name : String
deriving DecidableEq, Repr

/-- Engine environment: the ambient mutable globals of the source that the
engine reads (currentRegion, currentWeekendPattern, customHolidaysByLocation,
holidayDataset, bookedDates). -/
structure Env where
  region : Region
  weekendPattern : WPat
  /-- customHolidaysByLocation: custom holidays per location. -/
  custom : Region → List Holiday
  /-- holidayDataset, as a lookup country code -> year -> entries; `none`
  models an absent dataset, an empty list models a missing year. -/
  dataset : Option (String → Nat → List Holiday)
  /-- bookedDates: the set of booked dates (all years), as a list. -/
  booked : List Int

/-- getCustomHolidaysForLocation. -/
def getCustomHolidaysForLocation (env : Env) (location : Region) : List Holiday :=
  env.custom location

/-! ## Holiday generation (getEasterDate, findDayInMonth, createHoliday,
getUKHolidays and helpers) -/

/-- Month (1-based) of Easter Sunday by the Meeus/Jones/Butcher algorithm,
exactly as getEasterDate computes it. -/
def easterMonth (year : Nat) : Nat :=
  let goldenNumber := year % 19
  let century := year / 100
  let yearInCentury := year % 100
  let skippedLeapYears := century / 4
  let lunarCorrection := (century + 8) / 25
  let solarCorrection := (century - lunarCorrection + 1) / 3
  let epact := (19 * goldenNumber + century - skippedLeapYears - solarCorrection + 15) % 30
  let leapYearsInCentury := yearInCentury / 4
  let centuryMod4 := century % 4
  let yearInCenturyMod4 := yearInCentury % 4
  let dayCorrection :=
    (32 + 2 * centuryMod4 + 2 * leapYearsInCentury - epact - yearInCenturyMod4) % 7
  let monthCorrection := (goldenNumber + 11 * epact + 22 * dayCorrection) / 451
  (epact + dayCorrection - 7 * monthCorrection + 114) / 31

/-- Day of month of Easter Sunday, exactly as getEasterDate computes it. -/
def easterDay (year : Nat) : Nat :=
  let goldenNumber := year % 19
  let century := year / 100
  let yearInCentury := year % 100
  let skippedLeapYears := century / 4
  let lunarCorrection := (century + 8) / 25
  let solarCorrection := (century - lunarCorrection + 1) / 3
  let epact := (19 * goldenNumber + century - skippedLeapYears - solarCorrection + 15) % 30
  let leapYearsInCentury := yearInCentury / 4
  let centuryMod4 := century % 4
  let yearInCenturyMod4 := yearInCentury % 4
  let dayCorrection :=
    (32 + 2 * centuryMod4 + 2 * leapYearsInCentury - epact - yearInCenturyMod4) % 7
  let monthCorrection := (goldenNumber + 11 * epact + 22 * dayCorrection) / 451
  (epact + dayCorrection - 7 * monthCorrection + 114) % 31 + 1

/-- getEasterDate: the date of Easter Sunday as a day number. -/
def getEasterDate (year : Nat) : Int := toRd year (easterMonth year) (easterDay year)

example : getEasterDate 2023 = toRd 2023 4 9 := by decide
example : getEasterDate 2024 = toRd 2024 3 31 := by decide

/-- Bounded forward search for the next date with the given weekday,
modelling the while loop of findDayInMonth for position first.  Seven
steps always reach every weekday, so fuel 7 is exact. -/
def searchDowFwd (target : Int) : Nat → Int → Int
  | 0, r => r
  | fuel + 1, r => if dow r == target then r else searchDowFwd target fuel (r + 1)

/-- Bounded backward search, modelling findDayInMonth for position last. -/
def searchDowBwd (target : Int) : Nat → Int → Int
  | 0, r => r
  | fuel + 1, r => if dow r == target then r else searchDowBwd target fuel (r - 1)

/-- findDayInMonth, with the 0-based JS month argument.  position first
starts at day 1 of the month and walks forward; position last starts at the
last day of the month (`new Date(year, month + 1, 0)`) and walks backward. -/
def findDayInMonth (year : Nat) (month : Nat) (dayOfWeek : Int) (first : Bool) : Int :=
  if first then searchDowFwd dayOfWeek 7 (toRd year (month + 1) 1)
  else searchDowBwd dayOfWeek 7 (toRd year (month + 2) 1 - 1)

example : findDayInMonth 2023 4 1 true = toRd 2023 5 1 := by decide
example : findDayInMonth 2023 4 1 false = toRd 2023 5 29 := by decide

/-- Substitution rule argument of createHoliday. -/
inductive SubstRule where
  | nextMonday
  | nextTuesday
deriving DecidableEq, Repr

/-- createHoliday: shifts a holiday that falls on Saturday or Sunday forward
per the substitution rule and marks it as a substitute. -/
def createHoliday (date : Int) (name : String) (substituteRule : SubstRule := .nextMonday) :
    Holiday :=
  let d :=
    if dow date == 0 then
      match substituteRule with
      | .nextMonday => date + 1
      | .nextTuesday => date + 2
    else if dow date == 6 then
      match substituteRule with
      | .nextMonday => date + 2
      | .nextTuesday => date + 3
    else date
  { date := d, name := name ++ (if d != date then " (Substitute)" else "") }

/-- getScotlandJan2: January 2 with standard weekend substitution, moved one
further day if it collides with the New Year substitute. -/
def getScotlandJan2 (year : Nat) (jan1Holiday : Holiday) : Holiday :=
  let jan2 := toRd year 1 2
  let d :=
    if dow jan2 == 0 then jan2 + 1
    else if dow jan2 == 6 then jan2 + 2
    else jan2
  let d := if d == jan1Holiday.date then d + 1 else d
  { date := d, name := "2nd January" }

/-- getSummerBankHoliday: first Monday of August for Scotland, last Monday
of August for the other regions. -/
def getSummerBankHoliday (year : Nat) (region : Region) : Holiday :=
  let date := findDayInMonth year 7 1 (region == Region.scotland)
  { date := date, name := "Summer Bank Holiday" }

/-- getChristmasHolidays: Christmas and Boxing Day with their coupled
substitution logic. -/
def getChristmasHolidays (year : Nat) : List Holiday :=
  let xmas := toRd year 12 25
  let boxing := toRd year 12 26
  let xmasEntry :=
    if dow xmas == 6 || dow xmas == 0 then
      { date := toRd year 12 27, name := "Christmas Day (Substitute)" : Holiday }
    else { date := xmas, name := "Christmas Day" }
  let boxingEntry :=
    if dow boxing == 6 || dow boxing == 0 then
      { date := toRd year 12 28, name := "Boxing Day (Substitute)" : Holiday }
    else { date := boxing, name := "Boxing Day" }
  [xmasEntry, boxingEntry]

/-- The regional (rule-based) holiday list that getUKHolidays builds before
custom holidays are merged, in the push order of the source. -/
def ukRegionalHolidays (year : Nat) (region : Region) : List Holiday :=
  let newYear := createHoliday (toRd year 1 1) "New Years Day"
  let easter := getEasterDate year
  let part1 :=
    [newYear]
    ++ (if region == Region.scotland then [getScotlandJan2 year newYear] else [])
    ++ (if region == Region.northernIreland
        then [createHoliday (toRd year 3 17) "St Patricks Day"] else [])
    ++ [{ date := easter - 2, name := "Good Friday" : Holiday }]
    ++ (if region != Region.scotland
        then [{ date := easter + 1, name := "Easter Monday" : Holiday }] else [])
    ++ [{ date := findDayInMonth year 4 1 true, name := "Early May Bank Holiday" : Holiday }]
    ++ [{ date := findDayInMonth year 4 1 false, name := "Spring Bank Holiday" : Holiday }]
    ++ (if region == Region.northernIreland
        then [createHoliday (toRd year 7 12) "Battle of the Boyne (Orangemens Day)"]
        else [])
    ++ [getSummerBankHoliday year region]
    ++ (if region == Region.scotland
        then [createHoliday (toRd year 11 30) "St Andrews Day"] else [])
  part1 ++ getChristmasHolidays year

/-- Merge of custom holidays into an existing list: each custom entry is
appended only when no entry with its date is already present (the forEach
at the end of getUKHolidays and of the dataset branch of getHolidaysForYear). -/
def mergeCustomHolidays (base : List Holiday) (customHolidays : List Holiday) : List Holiday :=
  customHolidays.foldl
    (fun hs h => if hs.any (fun eh => eh.date == h.date) then hs else hs ++ [h]) base

/-- getUKHolidays: regional holidays plus merged custom holidays. -/
def getUKHolidays (env : Env) (year : Nat) (region : Region) : List Holiday :=
  mergeCustomHolidays (ukRegionalHolidays year region) (getCustomHolidaysForLocation env region)

/-- getDatasetHolidays: entries of the pre-fetched dataset for the location
and year, empty when the dataset or the year is absent. -/
def getDatasetHolidays (env : Env) (year : Nat) (location : Region) : List Holiday :=
  match env.dataset with
  | none => []
  | some ds => ds (countryCode location) year

/-- hasHolidayDataForYear. -/
def hasHolidayDataForYear (env : Env) (location : Region) (year : Nat) : Bool :=
  match env.dataset with
  | none => false
  | some ds => !(ds (countryCode location) year).isEmpty

/-- getHolidaysForYear: dataset lookup plus custom merge for dataset-backed
locations, otherwise getUKHolidays.  The per-key cache of the source is a
pure recomputation here. -/
def getHolidaysForYear (env : Env) (year : Nat) (region : Region) : List Holiday :=
  if isDatasetLocation region then
    mergeCustomHolidays (getDatasetHolidays env year region)
      (getCustomHolidaysForLocation env region)
  else getUKHolidays env year region

/-! ## Day classification (isWeekend, isHoliday, getDayType, isDayOff) and
the per-year caches -/

/-- The three day types. -/
inductive DayType where
  | workday
  | weekend
  | holiday
deriving DecidableEq, Repr

/-- isWeekend: the weekday is one of the active weekend presets days. -/
def isWeekend (env : Env) (date : Int) : Bool :=
  env.weekendPattern.days.contains (dow date)

/-- isHoliday: some holiday entry of the year of the date (for the current
region) has this date.  The Map lookup of getHolidayName is modelled as a
list search; only existence matters to the engine. -/
def isHoliday (env : Env) (date : Int) : Bool :=
  (getHolidaysForYear env (yearOfRd date) env.region).any (fun h => h.date == date)

/-- getDayType, in its direct (cache-miss) form; ensureDayTypeCache fills the
per-year array with exactly this classification, so the cache-hit path
computes the same values (made precise by the cache lemmas below). -/
def getDayType (env : Env) (date : Int) : DayType :=
  if isHoliday env date then .holiday
  else if isWeekend env date then .weekend
  else .workday

/-- isNonWorkday. -/
def isNonWorkday (env : Env) (date : Int) : Bool :=
  getDayType env date != .workday

/-- isDayOff: weekend or holiday, or booked when a booked set is passed. -/
def isDayOff (env : Env) (date : Int) (bookedSet : Option (List Int) := none) : Bool :=
  isNonWorkday env date ||
    (match bookedSet with
     | some b => b.contains date
     | none => false)

/-- ensureDayTypeCache: the dense day-type array for a year, as a list
indexed by the 0-based day offset. -/
def dayTypeCacheList (env : Env) (year : Nat) : List DayType :=
  (List.range (daysInYear year)).map (fun i : Nat => getDayType env (dateOfIdx year (i : Int)))

/-- ensureBookedDaysIndices: the booked-day bitset for a year.  The source
filters the booked date strings by year prefix and keeps those whose offset
is in range; for well-formed dates that is exactly membership of the date. -/
def bookedDaysIndicesList (env : Env) (year : Nat) : List Bool :=
  (List.range (daysInYear year)).map (fun i : Nat => env.booked.contains (dateOfIdx year (i : Int)))

/-! ## Leave-block expansion (calculateContinuousLeave and its index-based
variant), with fuel for the unbounded while loops -/

/-- The skip loop `while (isOff(current)) current++`: advance to the first
position where the predicate is false, within the given fuel. -/
def skipOffLoop (off : Int → Bool) : Nat → Int → Int
  | 0, i => i
  | fuel + 1, i => if off i then skipOffLoop off fuel (i + 1) else i

/-- The consume loop of the index-based expander: repeatedly step forward,
counting positions where the predicate is false, until `target` of them have
been counted; returns the last counted position (lastBookedIdx). -/
def consumeLoop (off : Int → Bool) : Nat → Int → Int → Nat → Nat → Int
  | 0, _cur, last, _cnt, _target => last
  | fuel + 1, cur, last, cnt, target =>
    if cnt < target then
      if off cur then consumeLoop off fuel (cur + 1) last cnt target
      else consumeLoop off fuel (cur + 1) cur (cnt + 1) target
    else last

/-- The consume loop of the Date-based expander, recording every consumed
workday (leaveDaysBooked). -/
def consumeListLoop (off : Int → Bool) : Nat → Int → List Int → Nat → Nat → List Int
  | 0, _cur, acc, _cnt, _target => acc
  | fuel + 1, cur, acc, cnt, target =>
    if cnt < target then
      if off cur then consumeListLoop off fuel (cur + 1) acc cnt target
      else consumeListLoop off fuel (cur + 1) (acc ++ [cur]) (cnt + 1) target
    else acc

/-- The backward expansion loop `while (isOff(start - 1)) start--`. -/
def expandBackLoop (off : Int → Bool) : Nat → Int → Int
  | 0, s => s
  | fuel + 1, s => if off (s - 1) then expandBackLoop off fuel (s - 1) else s

/-- The forward expansion loop `while (isOff(end + 1)) end++`. -/
def expandFwdLoop (off : Int → Bool) : Nat → Int → Int
  | 0, e => e
  | fuel + 1, e => if off (e + 1) then expandFwdLoop off fuel (e + 1) else e

/-- A candidate block in index form, as produced by
calculateContinuousLeaveByIndex.  In the source the startDate / endDate
fields of these objects hold the indices themselves; combination solving
compares them only with each other, so one pair of fields suffices here. -/
structure Cand where
  startIdx : Int
  endIdx : Int
  leaveDaysUsed : Nat
  totalDaysOff : Int
  efficiency : ℚ
deriving DecidableEq, Repr

instance : Inhabited Cand := ⟨⟨0, 0, 0, 0, 0⟩⟩

/-- isOffByIndex: array lookup inside the year, date-based classification
(with no booked set) outside it. -/
def isOffByIndex (idx : Int) (isOffArray : List Bool) (env : Env) (year : Nat) : Bool :=
  if 0 ≤ idx ∧ idx < (isOffArray.length : Int) then isOffArray.getD idx.toNat false
  else isDayOff env (dateOfIdx year idx)

/-- calculateContinuousLeaveByIndex: the index-based expander. -/
def calculateContinuousLeaveByIndex (fuel : Nat) (startIdx : Int) (leaveDaysToUse : Nat)
    (isOffArray : List Bool) (env : Env) (year : Nat) : Cand :=
  let off := fun idx => isOffByIndex idx isOffArray env year
  let firstBookedIdx := skipOffLoop off fuel startIdx
  let lastBookedIdx := consumeLoop off fuel firstBookedIdx firstBookedIdx 0 leaveDaysToUse
  let rangeStartIdx := expandBackLoop off fuel firstBookedIdx
  let rangeEndIdx := expandFwdLoop off fuel lastBookedIdx
  let totalDaysOff := rangeEndIdx - rangeStartIdx + 1
  { startIdx := rangeStartIdx
    endIdx := rangeEndIdx
    leaveDaysUsed := leaveDaysToUse
    totalDaysOff := totalDaysOff
    efficiency := (totalDaysOff : ℚ) / (leaveDaysToUse : ℚ) }

/-- A leave block in Date form, as produced by calculateContinuousLeave and
by findOptimalPlan (dates are day numbers). -/
structure Block where
  startDate : Int
  endDate : Int
  leaveDaysUsed : Nat
  totalDaysOff : Int
  efficiency : ℚ
  bookedDates : List Int
deriving DecidableEq, Repr

/-- calculateContinuousLeave: the Date-based expander; returns none when no
workday was consumed (`leaveDaysBooked.length === 0`). -/
def calculateContinuousLeave (fuel : Nat) (startDate : Int) (leaveDaysToUse : Nat)
    (env : Env) (bookedSet : Option (List Int) := none) : Option Block :=
  let off := fun d => isDayOff env d bookedSet
  let current := skipOffLoop off fuel startDate
  let leaveDaysBooked := consumeListLoop off fuel current [] 0 leaveDaysToUse
  match leaveDaysBooked with
  | [] => none
  | firstBookedDay :: rest =>
    let lastBookedDay := (firstBookedDay :: rest).getLast (by simp)
    let rangeStart := expandBackLoop off fuel firstBookedDay
    let rangeEnd := expandFwdLoop off fuel lastBookedDay
    let totalDaysOff := rangeEnd - rangeStart + 1
    some
      { startDate := rangeStart
        endDate := rangeEnd
        leaveDaysUsed := leaveDaysToUse
        totalDaysOff := totalDaysOff
        efficiency := (totalDaysOff : ℚ) / (leaveDaysToUse : ℚ)
        bookedDates := leaveDaysBooked }

/-! ## Per-day insight (calculateInsightByIndex, getDayInsight) -/

/-- A day insight: efficiency, total days off, and the bridge flag. -/
structure Insight where
  efficiency : ℚ
  totalDaysOff : Int
  bridge : Bool
deriving DecidableEq, Repr

/-- The off-test of calculateInsightByIndex: day-type array or booked bitset
inside the year, full date-based classification with the booked set at the
year boundary. -/
def insightIsOff (env : Env) (year : Nat) (idx : Int) : Bool :=
  if 0 ≤ idx ∧ idx < ((dayTypeCacheList env year).length : Int) then
    (dayTypeCacheList env year).getD idx.toNat .workday != .workday ||
      (bookedDaysIndicesList env year).getD idx.toNat false
  else isDayOff env (dateOfIdx year idx) (some env.booked)

/-- calculateInsightByIndex: single-day (N = 1) expansion from startIdx plus
the bridge flag for the query day itself. -/
def calculateInsightByIndex (fuel : Nat) (startIdx : Int) (env : Env) (year : Nat) : Insight :=
  let isOff := insightIsOff env year
  let currentIdx := skipOffLoop isOff fuel startIdx
  let start := expandBackLoop isOff fuel currentIdx
  let stop := expandFwdLoop isOff fuel currentIdx
  let totalDaysOff := stop - start + 1
  { efficiency := (totalDaysOff : ℚ)
    totalDaysOff := totalDaysOff
    bridge := isOff (startIdx - 1) && isOff (startIdx + 1) }

/-- getDayInsight: none for a non-workday; otherwise the index-based insight
for the day offset within its year (the cache-backed fast path of the
source, which is always applicable once the caches are filled; the
Date-based fallback computes the same values). -/
def getDayInsight (fuel : Nat) (date : Int) (env : Env) : Option Insight :=
  if getDayType env date != .workday then none
  else
    let year := yearOfRd date
    some (calculateInsightByIndex fuel (date - jan1Rd year) env year)

/-- getEfficiencyTier. -/
def getEfficiencyTier (efficiency : ℚ) : String :=
  if efficiency ≥ 3 then "high" else if efficiency ≥ 2 then "mid" else "low"

/-! ## Candidate generation and pruning -/

/-- Key-based deduplication used by generateAllCandidates and
selectTopCandidates: keep the first candidate for each (startIdx, endIdx)
key (the seen-set forEach of the source). -/
def dedupByKey (l : List Cand) : List Cand :=
  l.foldl
    (fun acc c =>
      if acc.any (fun c2 => c2.startIdx == c.startIdx && c2.endIdx == c.endIdx) then acc
      else acc ++ [c])
    []

/-- The isOffArray of generateAllCandidates: 1 where the day type is not
workday (no booked days involved). -/
def isOffArrayOf (env : Env) (year : Nat) : List Bool :=
  (dayTypeCacheList env year).map (fun t => t != .workday)

/-- generateAllCandidates: for every workday offset and every duration from
1 to the allowance, one index-based candidate; then key-deduplication. -/
def generateAllCandidates (fuel : Nat) (year : Nat) (allowance : Nat) (env : Env) :
    List Cand :=
  let isOffArray := isOffArrayOf env year
  let candidates :=
    (List.range (daysInYear year)).flatMap (fun i =>
      if isOffArray.getD i false = false then
        (List.range allowance).map (fun len =>
          calculateContinuousLeaveByIndex fuel (i : Int) (len + 1) isOffArray env year)
      else [])
  dedupByKey candidates

/-- Descending-efficiency comparator of the source sorts, as a total Boolean
order for mergeSort (JS sort is stable, as is mergeSort). -/
def effDesc (a b : Cand) : Bool := decide (b.efficiency ≤ a.efficiency)

/-- Descending totalDaysOff comparator. -/
def daysDesc (a b : Cand) : Bool := decide (b.totalDaysOff ≤ a.totalDaysOff)

/-- Ascending startIdx comparator (`(a, b) => a.startDate - b.startDate`). -/
def startAsc (a b : Cand) : Bool := decide (a.startIdx ≤ b.startIdx)

/-- selectTopCandidates: top 100 by descending efficiency plus top 50 by
descending duration, key-deduplicated, sorted by descending efficiency. -/
def selectTopCandidates (candidates : List Cand) : List Cand :=
  let sortedByEfficiency := candidates.mergeSort effDesc
  let efficientCandidates := sortedByEfficiency.take 100
  let sortedByDuration := candidates.mergeSort daysDesc
  let longCandidates := sortedByDuration.take 50
  let combinedCandidates := efficientCandidates ++ longCandidates
  let finalCandidates := dedupByKey combinedCandidates
  finalCandidates.mergeSort effDesc

/-! ## Combination solver (findBestCombination) and the optimal plan -/

/-- The inner while loop of the nextCompatible precomputation: advance `j`
while it points at a candidate starting no later than `endI`. -/
def ncAdvance (sorted : List Cand) (endI : Int) (j : Nat) : Nat :=
  if h : j < sorted.length then
    if (sorted.getD j default).startIdx ≤ endI then ncAdvance sorted endI (j + 1) else j
  else j
termination_by sorted.length - j

/-- The nextCompatible sweep: one pass over the start-sorted candidates with
a shared, never-retreating pointer `j` (`if (j < i + 1) j = i + 1` then the
inner while).  Produces the nextCompatible value for offsets i, i+1, ... -/
def ncAux (sorted : List Cand) : Nat → Nat → Nat → List Nat
  | 0, _i, _j => []
  | rem + 1, i, j =>
    let j1 := max j (i + 1)
    let j2 := ncAdvance sorted (sorted.getD i default).endIdx j1
    j2 :: ncAux sorted rem (i + 1) j2

/-- nextCompatible, as a list indexed like the sorted candidate list. -/
def nextCompat (sorted : List Cand) : List Nat :=
  ncAux sorted sorted.length 0 0

/-- The DP table `best(i, k, w)` of findBestCombination as a recursive
function: -1 is the unreachable marker, the base row i = N is 0 for k = 0.
The fuel argument only forces termination; with the actual nextCompatible
values every jump increases i, so fuel N + 1 reproduces the table the
source fills. -/
def memoF (sorted : List Cand) (nc : List Nat) : Nat → Nat → Nat → Nat → Int
  | 0, _i, _k, _w => -1
  | fuel + 1, i, k, w =>
    if i ≥ sorted.length then (if k = 0 then 0 else -1)
    else
      let res := memoF sorted nc fuel (i + 1) k w
      if k > 0 then
        let c := sorted.getD i default
        if c.leaveDaysUsed ≤ w then
          let prevVal := memoF sorted nc fuel (nc.getD i 0) (k - 1) (w - c.leaveDaysUsed)
          if prevVal != -1 then max res (c.totalDaysOff + prevVal) else res
        else res
      else res

/-- The tie-break score `totalOff*1000 + efficiency*10 - totalLeave`
(computeScore; -1 for zero leave). -/
def computeScore (totalOff : Int) (totalLeave : Nat) : ℚ :=
  if totalLeave = 0 then -1
  else
    let efficiency := (totalOff : ℚ) / (totalLeave : ℚ)
    (totalOff : ℚ) * 1000 + efficiency * 10 - (totalLeave : ℚ)

/-- The inner search over w = 1..W for a fixed block count k: best score and
its w (score -1 / w -1 when nothing scored). -/
def searchW (memo : Nat → Nat → Nat → Int) (k : Nat) (W : Nat) : ℚ × Int :=
  (List.range W).foldl
    (fun best w0 =>
      let w := w0 + 1
      let totalOff := memo 0 k w
      if totalOff > 0 then
        let s := computeScore totalOff w
        if s > best.1 then (s, (w : Int)) else best
      else best)
    (-1, -1)

/-- The outer search k = 3, 2, 1 with early break (foundK, foundW). -/
def findKW (memo : Nat → Nat → Nat → Int) (W : Nat) : Int × Int :=
  let r3 := searchW memo 3 W
  if r3.1 > -1 then (3, r3.2)
  else
    let r2 := searchW memo 2 W
    if r2.1 > -1 then (2, r2.2)
    else
      let r1 := searchW memo 1 W
      if r1.1 > -1 then (1, r1.2) else (-1, -1)

/-- The reconstruction walk of findBestCombination: from (i, k, w), take the
candidate at i whenever taking is valid and loses nothing versus skipping,
else move to i + 1. -/
def recon (sorted : List Cand) (nc : List Nat) (memo : Nat → Nat → Nat → Int) :
    Nat → Nat → Nat → Nat → List Cand
  | 0, _curI, _curK, _curW => []
  | fuel + 1, curI, curK, curW =>
    if curK > 0 ∧ curI < sorted.length then
      let skippedVal := memo (curI + 1) curK curW
      let cand := sorted.getD curI default
      let nextI := nc.getD curI 0
      let prevVal := memo nextI (curK - 1) (curW - cand.leaveDaysUsed)
      let takenVal : Int :=
        if cand.leaveDaysUsed ≤ curW ∧ prevVal ≠ -1 then cand.totalDaysOff + prevVal else -2
      if takenVal ≠ -2 ∧ takenVal ≥ skippedVal then
        cand :: recon sorted nc memo fuel nextI (curK - 1) (curW - cand.leaveDaysUsed)
      else recon sorted nc memo fuel (curI + 1) curK curW
    else []

/-- findBestCombination: sort by start, precompute nextCompatible, fill the
DP table, search (k, w), reconstruct, and sort the result by start date. -/
def findBestCombination (candidates : List Cand) (allowance : Nat) : List Cand :=
  if candidates.length = 0 ∨ allowance = 0 then []
  else
    let sorted := candidates.mergeSort startAsc
    let nc := nextCompat sorted
    let memo := fun i k w => memoF sorted nc (sorted.length + 1) i k w
    let kw := findKW memo allowance
    let bestCombo :=
      if kw.1 ≠ -1 then recon sorted nc memo (sorted.length + 1) 0 kw.1.toNat kw.2.toNat
      else []
    bestCombo.mergeSort startAsc

/-- findOptimalPlan: generate, prune, solve, then convert the chosen
index-based candidates back to Date blocks, reconstructing the booked
workdays from the day-type cache. -/
def findOptimalPlan (fuel : Nat) (year : Nat) (allowance : Nat) (env : Env) : List Block :=
  let uniqueCandidates := generateAllCandidates fuel year allowance env
  let topCandidates := selectTopCandidates uniqueCandidates
  let bestCombo := findBestCombination topCandidates allowance
  let cache := dayTypeCacheList env year
  bestCombo.map (fun c =>
    let startDate := dateOfIdx year c.startIdx
    let endDate := dateOfIdx year c.endIdx
    let bookedDates :=
      ((List.range (c.endIdx - c.startIdx + 1).toNat).map
          (fun k : Nat => c.startIdx + (k : Int))).filterMap
        (fun i =>
          if 0 ≤ i ∧ i < (cache.length : Int) then
            if cache.getD i.toNat .workday = .workday then some (dateOfIdx year i) else none
          else none)
    { startDate := startDate
      endDate := endDate
      leaveDaysUsed := c.leaveDaysUsed
      totalDaysOff := c.totalDaysOff
      efficiency := c.efficiency
      bookedDates := bookedDates })

/-- overlap: two blocks share at least one day. -/
def overlap (b1 b2 : Block) : Prop :=
  b1.startDate ≤ b2.endDate ∧ b1.endDate ≥ b2.startDate

instance (b1 b2 : Block) : Decidable (overlap b1 b2) := by unfold overlap; infer_instance

/-! ## Year-over-year comparison (InsightEngine) -/

/-- getLongestBlockDays: `Math.max(...plan.map(b => b.totalDaysOff))`, 0 for
an empty plan. -/
def getLongestBlockDays (plan : List Block) : Int :=
  match plan.map (fun b => b.totalDaysOff) with
  | [] => 0
  | x :: xs => xs.foldl max x

/-- The three comparison directions. -/
inductive Direction where
  | more
  | less
  | same
deriving DecidableEq, Repr

/-- The year-over-year comparison record. -/
structure Comparison where
  currentYear : Nat
  previousYear : Nat
  currentBest : Int
  previousBest : Int
  deltaPercent : Option ℚ
  direction : Direction
deriving DecidableEq, Repr

/-- getYearComparison: the full pipeline for the year and the previous year,
compared by longest block, with the 0.5 percent dead zone.  Returns none for
a dataset-backed region whose data is missing for either year. -/
def getYearComparison (fuel : Nat) (year : Nat) (allowance : Nat) (env : Env) :
    Option Comparison :=
  if isDatasetLocation env.region ∧
      (env.dataset.isNone ∨
        !(hasHolidayDataForYear env env.region year &&
          hasHolidayDataForYear env env.region (year - 1))) then
    none
  else
    let currentPlan := findOptimalPlan fuel year allowance env
    let previousPlan := findOptimalPlan fuel (year - 1) allowance env
    let currentBest := getLongestBlockDays currentPlan
    let previousBest := getLongestBlockDays previousPlan
    let deltaPercent : Option ℚ :=
      if previousBest > 0 then
        some (((currentBest - previousBest : Int) : ℚ) / (previousBest : ℚ) * 100)
      else none
    let direction : Direction :=
      match deltaPercent with
      | some dp => if dp > 1 / 2 then .more else if dp < -(1 / 2) then .less else .same
      | none => .same
    some
      { currentYear := year
        previousYear := year - 1
        currentBest := currentBest
        previousBest := previousBest
        deltaPercent := deltaPercent
        direction := direction }

/-! ## Concrete environments used by the claims -/

/-- The default environment: region A (england-wales), sat-sun weekend, no
custom holidays, no dataset, no booked days. -/
def ewDefaultEnv : Env :=
  { region := .englandWales
    weekendPattern := .satSun
    custom := fun _ => []
    dataset := none
    booked := [] }

/-! ## C2: the concrete expansion of 2023-04-03 with 4 leave days -/

/-- C2.  With region england-wales, the sat-sun weekend pattern, no custom
holidays and no booked days, calculateContinuousLeave started at 2023-04-03
with 4 leave days returns a block with startDate 2023-04-01, endDate
2023-04-10, totalDaysOff 10, and efficiency 2.5.  Fuel 60 more than covers
every loop of this concrete run. -/
theorem c2_expand_2023_04_03 :
    ((calculateContinuousLeave 60 (toRd 2023 4 3) 4 ewDefaultEnv none).map
        (fun b => b.startDate) = some (toRd 2023 4 1)) ∧
      ((calculateContinuousLeave 60 (toRd 2023 4 3) 4 ewDefaultEnv none).map
        (fun b => b.endDate) = some (toRd 2023 4 10)) ∧
      ((calculateContinuousLeave 60 (toRd 2023 4 3) 4 ewDefaultEnv none).map
        (fun b => b.totalDaysOff) = some 10) ∧
      ((calculateContinuousLeave 60 (toRd 2023 4 3) 4 ewDefaultEnv none).map
        (fun b => b.efficiency) = some (5 / 2)) := by
  refine ⟨by decide, by decide, by decide, ?_⟩
  have h :
      (calculateContinuousLeave 60 (toRd 2023 4 3) 4 ewDefaultEnv none).map
        (fun b => b.efficiency) = some (((10 : Int) : ℚ) / ((4 : Nat) : ℚ)) := by rfl
  rw [h]
  norm_num

/-! ## C8: no feasible combination yields the empty plan -/

/-- C8.  Whenever the allowance is 0 or the candidate pool is empty,
findBestCombination returns the empty plan (the function is total, so no
error is possible in this model). -/
theorem c8_empty_plan (candidates : List Cand) (allowance : Nat)
    (h : candidates = [] ∨ allowance = 0) :
    findBestCombination candidates allowance = [] := by
  rcases h with h | h <;> simp [findBestCombination, h]

/-- Witness for C8 at the empty pool and zero allowance. -/
theorem c8_empty_plan_witness : findBestCombination [] 0 = [] :=
  c8_empty_plan [] 0 (Or.inl rfl)

/-! ## C10: the optimal plan ignores the booked set -/

/-- C10.  findOptimalPlan is independent of the booked set: two environments
identical except for bookedDates produce the same ordered block list, for
every year, allowance and fuel.  The equality is definitional because the
candidate pipeline consults only the day-type classification (isOffByIndex
falls back to isDayOff with no booked set) and never reads Env.booked. -/
theorem c10_booked_independence (region : Region) (wp : WPat)
    (custom : Region → List Holiday) (dataset : Option (String → Nat → List Holiday))
    (b1 b2 : List Int) (fuel year allowance : Nat) :
    findOptimalPlan fuel year allowance ⟨region, wp, custom, dataset, b1⟩ =
      findOptimalPlan fuel year allowance ⟨region, wp, custom, dataset, b2⟩ := rfl

/-! ## C3: day insight nullity and the bridge flag -/

/-- Lookup in a tabulated list is the tabulated function. -/
theorem getD_range_map {α : Type} (f : Nat → α) (n i : Nat) (d : α) (h : i < n) :
    ((List.range n).map f).getD i d = f i := by
  simp [List.getD, List.getElem?_map, List.getElem?_range, h]

/-- Length of the day-type cache. -/
theorem dayTypeCacheList_length (env : Env) (year : Nat) :
    (dayTypeCacheList env year).length = daysInYear year := by
  unfold dayTypeCacheList
  rw [List.length_map, List.length_range]

/-- The off-test of calculateInsightByIndex agrees everywhere with the
direct date-based classification against the booked set: the cache and the
booked bitset are faithful inside the year, and the year-boundary branch is
the direct classification by definition. -/
theorem insightIsOff_eq_isDayOff (env : Env) (year : Nat) (idx : Int) :
    insightIsOff env year idx = isDayOff env (dateOfIdx year idx) (some env.booked) := by
  unfold insightIsOff
  split
  case isTrue h =>
    rw [dayTypeCacheList_length] at h
    have hnn : (0 : Int) ≤ idx := h.1
    have hlt : idx.toNat < daysInYear year := by omega
    rw [show (dayTypeCacheList env year).getD idx.toNat .workday =
        getDayType env (dateOfIdx year (idx.toNat : Int)) from
      getD_range_map _ _ _ _ hlt]
    rw [show (bookedDaysIndicesList env year).getD idx.toNat false =
        env.booked.contains (dateOfIdx year (idx.toNat : Int)) from
      getD_range_map _ _ _ _ hlt]
    rw [Int.toNat_of_nonneg hnn]
    rfl
  case isFalse h => rfl

/-- C3.  getDayInsight returns none exactly when the date is not a workday,
and for a workday the bridge flag of the returned insight is true exactly
when both the immediately preceding and the immediately following days are
off (weekend, holiday, or booked). -/
theorem c3_day_insight_null_and_bridge (env : Env) (fuel : Nat) (date : Int) :
    (getDayInsight fuel date env = none ↔ getDayType env date ≠ .workday) ∧
      (∀ ins, getDayInsight fuel date env = some ins →
        (ins.bridge = true ↔
          (isDayOff env (date - 1) (some env.booked) = true ∧
            isDayOff env (date + 1) (some env.booked) = true))) := by
  constructor
  · unfold getDayInsight
    split
    case isTrue h => simpa using h
    case isFalse h => simpa using h
  · intro ins hins
    unfold getDayInsight at hins
    split at hins
    case isTrue h => exact absurd hins (by simp)
    case isFalse h =>
    have hb : ins.bridge =
        (insightIsOff env (yearOfRd date) (date - jan1Rd (yearOfRd date) - 1) &&
          insightIsOff env (yearOfRd date) (date - jan1Rd (yearOfRd date) + 1)) := by
      have : ins = calculateInsightByIndex fuel (date - jan1Rd (yearOfRd date)) env
          (yearOfRd date) := by
        simpa using hins.symm
      rw [this]
      rfl
    rw [hb, insightIsOff_eq_isDayOff, insightIsOff_eq_isDayOff]
    rw [show dateOfIdx (yearOfRd date) (date - jan1Rd (yearOfRd date) - 1) = date - 1 by
      unfold dateOfIdx; ring]
    rw [show dateOfIdx (yearOfRd date) (date - jan1Rd (yearOfRd date) + 1) = date + 1 by
      unfold dateOfIdx; ring]
    simp

/-- Witness for C3: January 1, 2023 is a Sunday, hence not a workday, and
the insight is none. -/
theorem c3_day_insight_null_and_bridge_witness :
    getDayInsight 5 (toRd 2023 1 1) ewDefaultEnv = none :=
  (c3_day_insight_null_and_bridge ewDefaultEnv 5 (toRd 2023 1 1)).1.mpr (by decide)

/-! ## C9: the index-based and Date-based expanders agree -/

/-- Skipping is the identity when the start is not off (any fuel). -/
theorem skipOffLoop_eq_self (off : Int → Bool) (fuel : Nat) (i : Int) (h : off i = false) :
    skipOffLoop off fuel i = i := by
  cases fuel <;> simp [skipOffLoop, h]

/-- Shifting the whole axis commutes with the skip loop. -/
theorem skipOffLoop_shift (f : Int → Bool) (s : Int) :
    ∀ fuel i, skipOffLoop f fuel (s + i) = s + skipOffLoop (fun j => f (s + j)) fuel i := by
  intro fuel
  induction fuel with
  | zero => intro i; rfl
  | succ n ih =>
    intro i
    show (if f (s + i) then skipOffLoop f n (s + i + 1) else s + i) = _
    rw [show s + i + 1 = s + (i + 1) by ring]
    by_cases h : f (s + i) <;> simp [skipOffLoop, h, ih]

/-- Shifting the whole axis commutes with the backward expansion loop. -/
theorem expandBackLoop_shift (f : Int → Bool) (s : Int) :
    ∀ fuel i, expandBackLoop f fuel (s + i) = s + expandBackLoop (fun j => f (s + j)) fuel i := by
  intro fuel
  induction fuel with
  | zero => intro i; rfl
  | succ n ih =>
    intro i
    show (if f (s + i - 1) then expandBackLoop f n (s + i - 1) else s + i) = _
    rw [show s + i - 1 = s + (i - 1) by ring]
    by_cases h : f (s + (i - 1)) <;> simp [expandBackLoop, h, ih]

/-- Shifting the whole axis commutes with the forward expansion loop. -/
theorem expandFwdLoop_shift (f : Int → Bool) (s : Int) :
    ∀ fuel i, expandFwdLoop f fuel (s + i) = s + expandFwdLoop (fun j => f (s + j)) fuel i := by
  intro fuel
  induction fuel with
  | zero => intro i; rfl
  | succ n ih =>
    intro i
    show (if f (s + i + 1) then expandFwdLoop f n (s + i + 1) else s + i) = _
    rw [show s + i + 1 = s + (i + 1) by ring]
    by_cases h : f (s + (i + 1)) <;> simp [expandFwdLoop, h, ih]

/-- Shifting the whole axis commutes with the list-consuming loop. -/
theorem consumeListLoop_shift (f : Int → Bool) (s : Int) :
    ∀ fuel cur acc cnt target,
      consumeListLoop f fuel (s + cur) (acc.map (fun x => s + x)) cnt target =
        (consumeListLoop (fun j => f (s + j)) fuel cur acc cnt target).map (fun x => s + x) := by
  intro fuel
  induction fuel with
  | zero => intro cur acc cnt target; rfl
  | succ n ih =>
    intro cur acc cnt target
    show (if cnt < target then _ else _) = _
    by_cases hc : cnt < target
    · by_cases h : f (s + cur)
      · simpa [consumeListLoop, hc, h, show s + cur + 1 = s + (cur + 1) by ring] using
          ih (cur + 1) acc cnt target
      · have hstep := ih (cur + 1) (acc ++ [cur]) (cnt + 1) target
        simp only [List.map_append, List.map_cons, List.map_nil] at hstep
        simpa [consumeListLoop, hc, h,
          show s + cur + 1 = s + (cur + 1) by ring] using hstep
    · simp [consumeListLoop, hc]

/-- The two consume loops agree: from an aligned state (the accumulated list
ends at the tracked last index) the list loop ends at what the index loop
returns, and never changes the head. -/
theorem consume_agree (f : Int → Bool) :
    ∀ fuel cur acc last cnt target, acc.getLast? = some last →
      (consumeListLoop f fuel cur acc cnt target).getLast? =
          some (consumeLoop f fuel cur last cnt target) ∧
        (consumeListLoop f fuel cur acc cnt target).head? = acc.head? := by
  intro fuel
  induction fuel with
  | zero => intro cur acc last cnt target h; exact ⟨h, rfl⟩
  | succ n ih =>
    intro cur acc last cnt target h
    have hne : acc ≠ [] := by intro he; rw [he] at h; simp at h
    by_cases hc : cnt < target
    · by_cases hf : f cur
      · simpa [consumeListLoop, consumeLoop, hc, hf] using ih (cur + 1) acc last cnt target h
      · have h2 : (acc ++ [cur]).getLast? = some cur := by simp
        have := ih (cur + 1) (acc ++ [cur]) cur (cnt + 1) target h2
        refine ⟨by simpa [consumeListLoop, consumeLoop, hc, hf] using this.1, ?_⟩
        have hh : (acc ++ [cur]).head? = acc.head? := by
          cases acc with
          | nil => exact absurd rfl hne
          | cons a t => simp
        simpa [consumeListLoop, consumeLoop, hc, hf, hh] using this.2
    · exact ⟨by simpa [consumeListLoop, consumeLoop, hc] using h, by
        simp [consumeListLoop, hc]⟩


/-- The candidate-generation off-array test agrees everywhere with the
direct date-based classification (no booked set): faithful cache lookups
inside the year, direct classification at the boundary. -/
theorem isOffByIndex_eq_isDayOff (env : Env) (year : Nat) (idx : Int) :
    isOffByIndex idx (isOffArrayOf env year) env year =
      isDayOff env (dateOfIdx year idx) none := by
  unfold isOffByIndex
  split
  case isTrue h =>
    have hlen : (isOffArrayOf env year).length = daysInYear year := by
      unfold isOffArrayOf
      rw [List.length_map, dayTypeCacheList_length]
    rw [hlen] at h
    have hnn : (0 : Int) ≤ idx := h.1
    have hlt : idx.toNat < daysInYear year := by omega
    unfold isOffArrayOf dayTypeCacheList
    rw [List.map_map, getD_range_map _ _ _ _ hlt]
    simp [Function.comp, Int.toNat_of_nonneg hnn, isDayOff, isNonWorkday]
  case isFalse h => rfl

/-- Aligned first step of the two consume loops, combined with the shift:
from a bookable start both loops book it and then stay in lockstep. -/
theorem consume_loops_agree (f : Int → Bool) (s i : Int) (N fz : Nat) (hN : 0 < N)
    (hfi : f (s + i) = false) :
    ∃ t : List Int,
      consumeListLoop f (fz + 1) (s + i) [] 0 N = (s + i) :: t ∧
      ((s + i) :: t).getLast? =
        some (s + consumeLoop (fun j => f (s + j)) (fz + 1) i i 0 N) := by
  have hgi : (fun j => f (s + j)) i = false := hfi
  have hcons1 : consumeLoop (fun j => f (s + j)) (fz + 1) i i 0 N =
      consumeLoop (fun j => f (s + j)) fz (i + 1) i 1 N := by simp [consumeLoop, hN, hgi]
  have hstep : consumeListLoop f (fz + 1) (s + i) [] 0 N =
      consumeListLoop f fz (s + i + 1) [s + i] 1 N := by simp [consumeListLoop, hN, hfi]
  have hshift : consumeListLoop f fz (s + i + 1) [s + i] 1 N =
      (consumeListLoop (fun j => f (s + j)) fz (i + 1) [i] 1 N).map (fun x => s + x) := by
    rw [show s + i + 1 = s + (i + 1) by ring, show [s + i] = [i].map (fun x => s + x) by simp]
    exact consumeListLoop_shift f s fz (i + 1) [i] 1 N
  have hagree := consume_agree (fun j => f (s + j)) fz (i + 1) [i] i 1 N (by simp)
  obtain ⟨t0, ht0⟩ : ∃ t0, consumeListLoop (fun j => f (s + j)) fz (i + 1) [i] 1 N = i :: t0 := by
    cases hl2 : consumeListLoop (fun j => f (s + j)) fz (i + 1) [i] 1 N with
    | nil => rw [hl2] at hagree; simp at hagree
    | cons a t0 =>
      rw [hl2] at hagree
      simp at hagree
      exact ⟨t0, by rw [hagree.2]⟩
  refine ⟨t0.map (fun x => s + x), ?_, ?_⟩
  · rw [hstep, hshift, ht0]; rfl
  · have hlast : ((i :: t0).map (fun x => s + x)).getLast? =
        some (s + consumeLoop (fun j => f (s + j)) fz (i + 1) i 1 N) := by
      rw [List.getLast?_map, ← ht0, hagree.1]
      rfl
    rw [hcons1]
    simpa using hlast

/-- C9.  For every year, start offset inside the year whose day is a
workday, and leave-day count N at least 1, with an empty booked set (and any
positive fuel, the same on both sides), the index-based expander over the
generated off-array and the Date-based expander produce the same block:
equal start day, end day, leaveDaysUsed, totalDaysOff and efficiency. -/
theorem c9_index_date_equivalence (env : Env) (year : Nat) (i : Int) (N fuel : Nat)
    (_h0 : 0 ≤ i) (_h1 : i < (daysInYear year : Int))
    (hw : getDayType env (dateOfIdx year i) = .workday) (hN : 1 ≤ N) (hf : 1 ≤ fuel) :
    ∃ blk,
      calculateContinuousLeave fuel (dateOfIdx year i) N env none = some blk ∧
        blk.startDate =
          dateOfIdx year
            (calculateContinuousLeaveByIndex fuel i N (isOffArrayOf env year) env year).startIdx ∧
        blk.endDate =
          dateOfIdx year
            (calculateContinuousLeaveByIndex fuel i N (isOffArrayOf env year) env year).endIdx ∧
        blk.leaveDaysUsed =
          (calculateContinuousLeaveByIndex fuel i N (isOffArrayOf env year) env year).leaveDaysUsed ∧
        blk.totalDaysOff =
          (calculateContinuousLeaveByIndex fuel i N (isOffArrayOf env year) env year).totalDaysOff ∧
        blk.efficiency =
          (calculateContinuousLeaveByIndex fuel i N (isOffArrayOf env year) env year).efficiency := by
  obtain ⟨fz, rfl⟩ : ∃ fz, fuel = fz + 1 := ⟨fuel - 1, by omega⟩
  have hfun : (fun j : Int => isDayOff env (jan1Rd year + j) none) =
      (fun j : Int => isOffByIndex j (isOffArrayOf env year) env year) :=
    funext fun j => (isOffByIndex_eq_isDayOff env year j).symm
  have hIi : isOffByIndex i (isOffArrayOf env year) env year = false := by
    rw [isOffByIndex_eq_isDayOff]
    simp [isDayOff, isNonWorkday, hw]
  have hDi : isDayOff env (dateOfIdx year i) none = false := by
    have h2 := hIi
    rw [isOffByIndex_eq_isDayOff env year i] at h2
    exact h2
  have hcla := consume_loops_agree (fun d => isDayOff env d none) (jan1Rd year) i N fz hN hDi
  rw [hfun] at hcla
  obtain ⟨t, hlistEq, hlastEq⟩ := hcla
  have hskipD : skipOffLoop (fun d => isDayOff env d none) (fz + 1) (jan1Rd year + i) =
      jan1Rd year + i := skipOffLoop_eq_self _ _ _ hDi
  have hgl : ((jan1Rd year + i) :: t).getLast (by simp) =
      jan1Rd year +
        consumeLoop (fun j => isOffByIndex j (isOffArrayOf env year) env year) (fz + 1) i i 0
          N := by
    have h2 := List.getLast?_eq_getLast ((jan1Rd year + i) :: t) (by simp)
    rw [hlastEq] at h2
    exact (Option.some_inj.mp h2).symm
  have hcs : (calculateContinuousLeaveByIndex (fz + 1) i N (isOffArrayOf env year) env
      year).startIdx =
      expandBackLoop (fun j => isOffByIndex j (isOffArrayOf env year) env year) (fz + 1) i := by
    show expandBackLoop (fun j => isOffByIndex j (isOffArrayOf env year) env year) (fz + 1)
        (skipOffLoop (fun j => isOffByIndex j (isOffArrayOf env year) env year) (fz + 1) i) = _
    rw [skipOffLoop_eq_self _ _ _ hIi]
  have hce : (calculateContinuousLeaveByIndex (fz + 1) i N (isOffArrayOf env year) env
      year).endIdx =
      expandFwdLoop (fun j => isOffByIndex j (isOffArrayOf env year) env year) (fz + 1)
        (consumeLoop (fun j => isOffByIndex j (isOffArrayOf env year) env year) (fz + 1) i i 0
          N) := by
    show expandFwdLoop (fun j => isOffByIndex j (isOffArrayOf env year) env year) (fz + 1)
        (consumeLoop (fun j => isOffByIndex j (isOffArrayOf env year) env year) (fz + 1)
          (skipOffLoop (fun j => isOffByIndex j (isOffArrayOf env year) env year) (fz + 1) i)
          (skipOffLoop (fun j => isOffByIndex j (isOffArrayOf env year) env year) (fz + 1) i)
          0 N) = _
    rw [skipOffLoop_eq_self _ _ _ hIi]
  have hback : expandBackLoop (fun d => isDayOff env d none) (fz + 1) (jan1Rd year + i) =
      jan1Rd year +
        expandBackLoop (fun j => isOffByIndex j (isOffArrayOf env year) env year) (fz + 1) i := by
    rw [expandBackLoop_shift (fun d => isDayOff env d none) (jan1Rd year) (fz + 1) i, hfun]
  have hfwd : expandFwdLoop (fun d => isDayOff env d none) (fz + 1)
      (((jan1Rd year + i) :: t).getLast (by simp)) =
      jan1Rd year +
        expandFwdLoop (fun j => isOffByIndex j (isOffArrayOf env year) env year) (fz + 1)
          (consumeLoop (fun j => isOffByIndex j (isOffArrayOf env year) env year) (fz + 1) i i
            0 N) := by
    rw [hgl,
      expandFwdLoop_shift (fun d => isDayOff env d none) (jan1Rd year) (fz + 1)
        (consumeLoop (fun j => isOffByIndex j (isOffArrayOf env year) env year) (fz + 1) i i 0
          N),
      hfun]
  refine ⟨⟨expandBackLoop (fun d => isDayOff env d none) (fz + 1) (jan1Rd year + i),
      expandFwdLoop (fun d => isDayOff env d none) (fz + 1)
        (((jan1Rd year + i) :: t).getLast (by simp)),
      N,
      expandFwdLoop (fun d => isDayOff env d none) (fz + 1)
          (((jan1Rd year + i) :: t).getLast (by simp)) -
        expandBackLoop (fun d => isDayOff env d none) (fz + 1) (jan1Rd year + i) + 1,
      ((expandFwdLoop (fun d => isDayOff env d none) (fz + 1)
            (((jan1Rd year + i) :: t).getLast (by simp)) -
          expandBackLoop (fun d => isDayOff env d none) (fz + 1) (jan1Rd year + i) + 1 :
          Int) : ℚ) / (N : ℚ),
      (jan1Rd year + i) :: t⟩, ?_, ?_, ?_, rfl, ?_, ?_⟩
  · show calculateContinuousLeave (fz + 1) (dateOfIdx year i) N env none = _
    unfold calculateContinuousLeave dateOfIdx
    dsimp only
    rw [hskipD, hlistEq]
  · show expandBackLoop (fun d => isDayOff env d none) (fz + 1) (jan1Rd year + i) =
      dateOfIdx year _
    rw [hcs, hback]
    rfl
  · show expandFwdLoop (fun d => isDayOff env d none) (fz + 1)
        (((jan1Rd year + i) :: t).getLast (by simp)) = dateOfIdx year _
    rw [hce, hfwd]
    rfl
  · show expandFwdLoop (fun d => isDayOff env d none) (fz + 1)
          (((jan1Rd year + i) :: t).getLast (by simp)) -
        expandBackLoop (fun d => isDayOff env d none) (fz + 1) (jan1Rd year + i) + 1 =
      (calculateContinuousLeaveByIndex (fz + 1) i N (isOffArrayOf env year) env
          year).totalDaysOff
    have htd : (calculateContinuousLeaveByIndex (fz + 1) i N (isOffArrayOf env year) env
        year).totalDaysOff =
        (calculateContinuousLeaveByIndex (fz + 1) i N (isOffArrayOf env year) env
          year).endIdx -
          (calculateContinuousLeaveByIndex (fz + 1) i N (isOffArrayOf env year) env
            year).startIdx + 1 := rfl
    rw [htd, hcs, hce, hback, hfwd]
    ring
  · show (((expandFwdLoop (fun d => isDayOff env d none) (fz + 1)
            (((jan1Rd year + i) :: t).getLast (by simp)) -
          expandBackLoop (fun d => isDayOff env d none) (fz + 1) (jan1Rd year + i) + 1 :
          Int) : ℚ) / (N : ℚ)) =
      (calculateContinuousLeaveByIndex (fz + 1) i N (isOffArrayOf env year) env
          year).efficiency
    have heff : (calculateContinuousLeaveByIndex (fz + 1) i N (isOffArrayOf env year) env
        year).efficiency =
        (((calculateContinuousLeaveByIndex (fz + 1) i N (isOffArrayOf env year) env
              year).endIdx -
            (calculateContinuousLeaveByIndex (fz + 1) i N (isOffArrayOf env year) env
              year).startIdx + 1 : Int) : ℚ) / (N : ℚ) := rfl
    rw [heff, hcs, hce, hback, hfwd]
    congr 1
    push_cast
    ring

/-- Witness for C9: offset 92 of 2023 is Monday 2023-04-03, a workday in
region A, expanded with 4 leave days and fuel 60. -/
theorem c9_index_date_equivalence_witness :
    ∃ blk,
      calculateContinuousLeave 60 (dateOfIdx 2023 92) 4 ewDefaultEnv none = some blk ∧
        blk.startDate =
          dateOfIdx 2023
            (calculateContinuousLeaveByIndex 60 92 4 (isOffArrayOf ewDefaultEnv 2023)
              ewDefaultEnv 2023).startIdx ∧
        blk.endDate =
          dateOfIdx 2023
            (calculateContinuousLeaveByIndex 60 92 4 (isOffArrayOf ewDefaultEnv 2023)
              ewDefaultEnv 2023).endIdx ∧
        blk.leaveDaysUsed =
          (calculateContinuousLeaveByIndex 60 92 4 (isOffArrayOf ewDefaultEnv 2023)
            ewDefaultEnv 2023).leaveDaysUsed ∧
        blk.totalDaysOff =
          (calculateContinuousLeaveByIndex 60 92 4 (isOffArrayOf ewDefaultEnv 2023)
            ewDefaultEnv 2023).totalDaysOff ∧
        blk.efficiency =
          (calculateContinuousLeaveByIndex 60 92 4 (isOffArrayOf ewDefaultEnv 2023)
            ewDefaultEnv 2023).efficiency :=
  c9_index_date_equivalence ewDefaultEnv 2023 92 4 60 (by decide) (by decide) (by decide)
    (by decide) (by decide)

/-! ## C6: pruning to the top candidates -/

/-- Two candidates share the (startIdx, endIdx) deduplication key. -/
def candKeyEq (a b : Cand) : Prop := a.startIdx = b.startIdx ∧ a.endIdx = b.endIdx

instance (a b : Cand) : Decidable (candKeyEq a b) := by unfold candKeyEq; infer_instance

/-- The single step of the key-deduplicating folds. -/
def dedupStep (acc : List Cand) (c : Cand) : List Cand :=
  if acc.any (fun c2 => c2.startIdx == c.startIdx && c2.endIdx == c.endIdx) then acc
  else acc ++ [c]

/-- dedupByKey is the fold of dedupStep. -/
theorem dedupByKey_eq_foldl (l : List Cand) : dedupByKey l = l.foldl dedupStep [] := rfl

/-- Elements of the accumulator survive the deduplicating fold. -/
theorem dedupFold_mem_acc : ∀ (l acc : List Cand) (x : Cand),
    x ∈ acc → x ∈ l.foldl dedupStep acc := by
  intro l
  induction l with
  | nil => intro acc x hx; exact hx
  | cons c t ih =>
    intro acc x hx
    refine ih _ _ ?_
    unfold dedupStep
    split
    · exact hx
    · exact List.mem_append_left _ hx

/-- Every element of the folded result came from the accumulator or the list. -/
theorem dedupFold_mem : ∀ (l acc : List Cand) (x : Cand),
    x ∈ l.foldl dedupStep acc → x ∈ acc ∨ x ∈ l := by
  intro l
  induction l with
  | nil => intro acc x hx; exact Or.inl hx
  | cons c t ih =>
    intro acc x hx
    rcases ih _ _ hx with h | h
    · unfold dedupStep at h
      split at h
      · exact Or.inl h
      · rcases List.mem_append.mp h with h | h
        · exact Or.inl h
        · exact Or.inr (by simp at h; simp [h])
    · exact Or.inr (List.mem_cons_of_mem _ h)

/-- The folded result stays free of repeated keys. -/
theorem dedupFold_nodupKey : ∀ (l acc : List Cand),
    acc.Pairwise (fun a b => ¬candKeyEq a b) →
      (l.foldl dedupStep acc).Pairwise (fun a b => ¬candKeyEq a b) := by
  intro l
  induction l with
  | nil => intro acc h; exact h
  | cons c t ih =>
    intro acc h
    refine ih _ ?_
    unfold dedupStep
    split
    case isTrue => exact h
    case isFalse hne =>
      rw [List.pairwise_append]
      refine ⟨h, by simp, ?_⟩
      intro a ha b hb
      simp only [List.mem_singleton] at hb
      subst hb
      intro hk
      refine hne (List.any_eq_true.mpr ⟨a, ha, ?_⟩)
      simp [hk.1, hk.2]

/-- Every input element has a key-representative in the folded result. -/
theorem dedupFold_represented : ∀ (l acc : List Cand) (x : Cand), x ∈ l →
    ∃ x2 ∈ l.foldl dedupStep acc, candKeyEq x2 x := by
  intro l
  induction l with
  | nil => intro acc x hx; exact absurd hx (by simp)
  | cons c t ih =>
    intro acc x hx
    rcases List.mem_cons.mp hx with rfl | hx
    · by_cases hany :
        (acc.any (fun c2 => c2.startIdx == x.startIdx && c2.endIdx == x.endIdx)) = true
      · simp only [List.any_eq_true, Bool.and_eq_true, beq_iff_eq] at hany
        obtain ⟨c2, hc2, hk1, hk2⟩ := hany
        refine ⟨c2, ?_, hk1, hk2⟩
        refine dedupFold_mem_acc t (dedupStep acc x) c2 ?_
        unfold dedupStep
        split <;> [exact hc2; exact List.mem_append_left _ hc2]
      · refine ⟨x, ?_, rfl, rfl⟩
        refine dedupFold_mem_acc t (dedupStep acc x) x ?_
        unfold dedupStep
        rw [if_neg hany]
        exact List.mem_append_right _ (by simp)
    · exact ih _ _ hx

/-- Length bound for the deduplicating fold. -/
theorem dedupFold_length : ∀ (l acc : List Cand),
    (l.foldl dedupStep acc).length ≤ acc.length + l.length := by
  intro l
  induction l with
  | nil => intro acc; simp
  | cons c t ih =>
    intro acc
    have h := ih (dedupStep acc c)
    have hstep : (dedupStep acc c).length ≤ acc.length + 1 := by
      unfold dedupStep
      split <;> simp
    calc ((c :: t).foldl dedupStep acc).length = (t.foldl dedupStep (dedupStep acc c)).length :=
        rfl
      _ ≤ (dedupStep acc c).length + t.length := h
      _ ≤ acc.length + 1 + t.length := by omega
      _ = acc.length + (c :: t).length := by simp; omega

/-- In a list sorted by descending key, an element of the first n positions
is beaten by fewer than n elements of the list. -/
theorem countP_lt_of_mem_take {α β : Type} [LinearOrder β] (f : α → β) :
    ∀ (l : List α) (n : Nat) (x : α), l.Pairwise (fun a b => f b ≤ f a) → x ∈ l.take n →
      l.countP (fun y => decide (f x < f y)) < n := by
  intro l
  induction l with
  | nil => intro n x _ hx; simp at hx
  | cons a t ih =>
    intro n x hs hx
    obtain ⟨m, rfl⟩ : ∃ m, n = m + 1 := by
      cases n with
      | zero => simp at hx
      | succ m => exact ⟨m, rfl⟩
    rw [List.pairwise_cons] at hs
    rcases List.mem_cons.mp ((by simpa using hx : x ∈ a :: t.take m)) with rfl | hxm
    · have hzero : t.countP (fun y => decide (f x < f y)) = 0 := by
        refine List.countP_eq_zero.mpr ?_
        intro y hy
        simp [not_lt.mpr (hs.1 y hy)]
      simp [List.countP_cons, hzero]
    · have := ih m x hs.2 hxm
      rw [List.countP_cons]
      split <;> omega

/-- In a list sorted by descending key, an element tied-or-beaten by at
most n elements (itself included) is within the first n positions. -/
theorem mem_take_of_countP_le {α β : Type} [LinearOrder β] (f : α → β) :
    ∀ (l : List α) (n : Nat) (x : α), l.Pairwise (fun a b => f b ≤ f a) → x ∈ l →
      l.countP (fun y => decide (f x ≤ f y)) ≤ n → x ∈ l.take n := by
  intro l
  induction l with
  | nil => intro n x _ hx; simp at hx
  | cons a t ih =>
    intro n x hs hx hc
    rw [List.pairwise_cons] at hs
    obtain ⟨m, rfl⟩ : ∃ m, n = m + 1 := by
      cases n with
      | zero =>
        exfalso
        have hone : (1 : Nat) ≤ (a :: t).countP (fun y => decide (f x ≤ f y)) := by
          refine List.one_le_countP_iff.mpr ⟨x, hx, by simp⟩
        omega
      | succ m => exact ⟨m, rfl⟩
    rcases List.mem_cons.mp hx with rfl | hxt
    · simp [List.take_succ_cons]
    · have hax : f x ≤ f a := hs.1 x hxt
      have hcount : (a :: t).countP (fun y => decide (f x ≤ f y)) =
          t.countP (fun y => decide (f x ≤ f y)) + 1 := by
        rw [List.countP_cons]
        simp [hax]
      have hct : t.countP (fun y => decide (f x ≤ f y)) ≤ m := by omega
      have := ih m x hs.2 hxt hct
      simp [List.take_succ_cons, this]

/-- Transitivity of the descending-efficiency comparator. -/
theorem effDesc_trans (a b c : Cand) (h1 : effDesc a b = true) (h2 : effDesc b c = true) :
    effDesc a c = true := by
  simp only [effDesc, decide_eq_true_eq] at *
  exact le_trans h2 h1

/-- Totality of the descending-efficiency comparator. -/
theorem effDesc_total (a b : Cand) : (effDesc a b || effDesc b a) = true := by
  simp only [effDesc, Bool.or_eq_true, decide_eq_true_eq]
  exact le_total b.efficiency a.efficiency

/-- Transitivity of the descending-duration comparator. -/
theorem daysDesc_trans (a b c : Cand) (h1 : daysDesc a b = true) (h2 : daysDesc b c = true) :
    daysDesc a c = true := by
  simp only [daysDesc, decide_eq_true_eq] at *
  exact le_trans h2 h1

/-- Totality of the descending-duration comparator. -/
theorem daysDesc_total (a b : Cand) : (daysDesc a b || daysDesc b a) = true := by
  simp only [daysDesc, Bool.or_eq_true, decide_eq_true_eq]
  exact le_total b.totalDaysOff a.totalDaysOff

/-- Transitivity of the ascending-start comparator. -/
theorem startAsc_trans (a b c : Cand) (h1 : startAsc a b = true) (h2 : startAsc b c = true) :
    startAsc a c = true := by
  simp only [startAsc, decide_eq_true_eq] at *
  exact le_trans h1 h2

/-- Totality of the ascending-start comparator. -/
theorem startAsc_total (a b : Cand) : (startAsc a b || startAsc b a) = true := by
  simp only [startAsc, Bool.or_eq_true, decide_eq_true_eq]
  exact le_total a.startIdx b.startIdx

/-- C6.  selectTopCandidates returns (a) at most 150 candidates, (b) sorted
by descending efficiency, (c) with pairwise distinct (startIdx, endIdx)
keys, (d) all drawn from the input; (e) every returned candidate is within
the top 100 by efficiency or the top 50 by totalDaysOff (fewer than 100
input elements beat it on efficiency, or fewer than 50 on totalDaysOff);
and (f) every input candidate beaten-or-tied by at most 100 on efficiency
or at most 50 on totalDaysOff keeps a key-representative in the output. -/
theorem c6_select_top_candidates (candidates : List Cand) :
    (selectTopCandidates candidates).length ≤ 150 ∧
      (selectTopCandidates candidates).Pairwise (fun a b => b.efficiency ≤ a.efficiency) ∧
      (selectTopCandidates candidates).Pairwise (fun a b => ¬candKeyEq a b) ∧
      (∀ x ∈ selectTopCandidates candidates, x ∈ candidates) ∧
      (∀ x ∈ selectTopCandidates candidates,
        candidates.countP (fun y => decide (x.efficiency < y.efficiency)) < 100 ∨
          candidates.countP (fun y => decide (x.totalDaysOff < y.totalDaysOff)) < 50) ∧
      (∀ x ∈ candidates,
        candidates.countP (fun y => decide (x.efficiency ≤ y.efficiency)) ≤ 100 ∨
          candidates.countP (fun y => decide (x.totalDaysOff ≤ y.totalDaysOff)) ≤ 50 →
        ∃ x2 ∈ selectTopCandidates candidates, candKeyEq x2 x) := by
  have hpermE := List.mergeSort_perm candidates effDesc
  have hpermD := List.mergeSort_perm candidates daysDesc
  have hsortE : (candidates.mergeSort effDesc).Pairwise
      (fun a b => b.efficiency ≤ a.efficiency) := by
    have := List.sorted_mergeSort effDesc_trans effDesc_total candidates
    exact this.imp (by intro a b h; simpa [effDesc] using h)
  have hsortD : (candidates.mergeSort daysDesc).Pairwise
      (fun a b => b.totalDaysOff ≤ a.totalDaysOff) := by
    have := List.sorted_mergeSort daysDesc_trans daysDesc_total candidates
    exact this.imp (by intro a b h; simpa [daysDesc] using h)
  have hout : selectTopCandidates candidates =
      (dedupByKey ((candidates.mergeSort effDesc).take 100 ++
        (candidates.mergeSort daysDesc).take 50)).mergeSort effDesc := rfl
  have hpermOut := List.mergeSort_perm
    (dedupByKey ((candidates.mergeSort effDesc).take 100 ++
      (candidates.mergeSort daysDesc).take 50)) effDesc
  have hmemOut : ∀ x, x ∈ selectTopCandidates candidates ↔
      x ∈ dedupByKey ((candidates.mergeSort effDesc).take 100 ++
        (candidates.mergeSort daysDesc).take 50) := by
    intro x
    rw [hout]
    exact hpermOut.mem_iff
  have hmemED : ∀ x, x ∈ dedupByKey ((candidates.mergeSort effDesc).take 100 ++
      (candidates.mergeSort daysDesc).take 50) →
      x ∈ (candidates.mergeSort effDesc).take 100 ∨
        x ∈ (candidates.mergeSort daysDesc).take 50 := by
    intro x hx
    rw [dedupByKey_eq_foldl] at hx
    rcases dedupFold_mem _ _ _ hx with h | h
    · simp at h
    · exact List.mem_append.mp h
  refine ⟨?_, ?_, ?_, ?_, ?_, ?_⟩
  · rw [hout, hpermOut.length_eq, dedupByKey_eq_foldl]
    have := dedupFold_length ((candidates.mergeSort effDesc).take 100 ++
      (candidates.mergeSort daysDesc).take 50) []
    have h1 : ((candidates.mergeSort effDesc).take 100).length ≤ 100 := by
      exact List.length_take_le 100 (candidates.mergeSort effDesc)
    have h2 : ((candidates.mergeSort daysDesc).take 50).length ≤ 50 := by
      exact List.length_take_le 50 (candidates.mergeSort daysDesc)
    simp only [List.length_nil, List.length_append, Nat.zero_add] at this
    omega
  · rw [hout]
    have := List.sorted_mergeSort effDesc_trans effDesc_total
      (dedupByKey ((candidates.mergeSort effDesc).take 100 ++
        (candidates.mergeSort daysDesc).take 50))
    exact this.imp (by intro a b h; simpa [effDesc] using h)
  · rw [hout]
    refine (hpermOut.pairwise_iff ?_).mpr ?_
    · intro x y h hk
      exact h ⟨hk.1.symm, hk.2.symm⟩
    · rw [dedupByKey_eq_foldl]
      exact dedupFold_nodupKey _ [] (by simp)
  · intro x hx
    rcases hmemED x ((hmemOut x).mp hx) with h | h
    · exact hpermE.mem_iff.mp (List.mem_of_mem_take h)
    · exact hpermD.mem_iff.mp (List.mem_of_mem_take h)
  · intro x hx
    rcases hmemED x ((hmemOut x).mp hx) with h | h
    · left
      have := countP_lt_of_mem_take (fun c : Cand => c.efficiency)
        (candidates.mergeSort effDesc) 100 x hsortE h
      rwa [hpermE.countP_eq] at this
    · right
      have := countP_lt_of_mem_take (fun c : Cand => c.totalDaysOff)
        (candidates.mergeSort daysDesc) 50 x hsortD h
      rwa [hpermD.countP_eq] at this
  · intro x hx hc
    have hrep : ∃ x2 ∈ dedupByKey ((candidates.mergeSort effDesc).take 100 ++
        (candidates.mergeSort daysDesc).take 50), candKeyEq x2 x := by
      rw [dedupByKey_eq_foldl]
      refine dedupFold_represented _ [] x ?_
      rcases hc with hc | hc
      · refine List.mem_append_left _ ?_
        refine mem_take_of_countP_le (fun c : Cand => c.efficiency)
          (candidates.mergeSort effDesc) 100 x hsortE (hpermE.mem_iff.mpr hx) ?_
        rwa [hpermE.countP_eq]
      · refine List.mem_append_right _ ?_
        refine mem_take_of_countP_le (fun c : Cand => c.totalDaysOff)
          (candidates.mergeSort daysDesc) 50 x hsortD (hpermD.mem_iff.mpr hx) ?_
        rwa [hpermD.countP_eq]
    obtain ⟨x2, hx2, hk⟩ := hrep
    exact ⟨x2, (hmemOut x2).mpr hx2, hk⟩

/-! ## C1: the plan is non-overlapping and within the allowance -/

/-- Postcondition of the nextCompatible inner while loop: the pointer never
retreats, and it stops at the end or strictly past endI. -/
theorem ncAdvance_spec (sorted : List Cand) (endI : Int) (j : Nat) :
    j ≤ ncAdvance sorted endI j ∧
      (sorted.length ≤ ncAdvance sorted endI j ∨
        endI < (sorted.getD (ncAdvance sorted endI j) default).startIdx) := by
  rw [ncAdvance]
  split
  case isTrue h =>
    split
    case isTrue h2 =>
      have ih := ncAdvance_spec sorted endI (j + 1)
      exact ⟨by omega, ih.2⟩
    case isFalse h2 => exact ⟨le_refl j, Or.inr (by omega)⟩
  case isFalse h => exact ⟨le_refl j, Or.inl (by omega)⟩
termination_by sorted.length - j

/-- Per-offset specification of the nextCompatible sweep. -/
theorem ncAux_getD (sorted : List Cand) :
    ∀ (rem i j k : Nat), k < rem →
      i + k < (ncAux sorted rem i j).getD k 0 ∧
        (sorted.length ≤ (ncAux sorted rem i j).getD k 0 ∨
          (sorted.getD (i + k) default).endIdx <
            (sorted.getD ((ncAux sorted rem i j).getD k 0) default).startIdx) := by
  intro rem
  induction rem with
  | zero => intro i j k hk; omega
  | succ rem ih =>
    intro i j k hk
    cases k with
    | zero =>
      have hspec := ncAdvance_spec sorted (sorted.getD i default).endIdx (max j (i + 1))
      constructor
      · show i + 0 < (ncAux sorted (rem + 1) i j).getD 0 0
        have : (ncAux sorted (rem + 1) i j).getD 0 0 =
            ncAdvance sorted (sorted.getD i default).endIdx (max j (i + 1)) := rfl
        rw [this]
        omega
      · have : (ncAux sorted (rem + 1) i j).getD 0 0 =
            ncAdvance sorted (sorted.getD i default).endIdx (max j (i + 1)) := rfl
        rw [this, show i + 0 = i from rfl]
        exact hspec.2
    | succ k =>
      have hrec := ih (i + 1) (ncAdvance sorted (sorted.getD i default).endIdx (max j (i + 1)))
        k (by omega)
      have : (ncAux sorted (rem + 1) i j).getD (k + 1) 0 =
          (ncAux sorted rem (i + 1)
            (ncAdvance sorted (sorted.getD i default).endIdx (max j (i + 1)))).getD k 0 := rfl
      rw [this, show i + (k + 1) = (i + 1) + k by omega]
      exact hrec

/-- Specification of nextCompat: each entry strictly follows its offset and
either passes the end or starts strictly after its candidate ends. -/
theorem nextCompat_spec (sorted : List Cand) (k : Nat) (hk : k < sorted.length) :
    k < (nextCompat sorted).getD k 0 ∧
      (sorted.length ≤ (nextCompat sorted).getD k 0 ∨
        (sorted.getD k default).endIdx <
          (sorted.getD ((nextCompat sorted).getD k 0) default).startIdx) := by
  have := ncAux_getD sorted sorted.length 0 0 k hk
  simpa using this

/-- Safety of the reconstruction walk: whatever the DP table contains, the
walk spends at most its budget, only picks candidates from the remaining
suffix, and the picks are strictly separated in order. -/
theorem recon_spec (sorted : List Cand) (nc : List Nat) (memo : Nat → Nat → Nat → Int)
    (hsort : sorted.Pairwise (fun a b => a.startIdx ≤ b.startIdx))
    (hnc : ∀ k, k < sorted.length →
      k < nc.getD k 0 ∧
        (sorted.length ≤ nc.getD k 0 ∨
          (sorted.getD k default).endIdx < (sorted.getD (nc.getD k 0) default).startIdx)) :
    ∀ (fuel curI curK curW : Nat),
      ((recon sorted nc memo fuel curI curK curW).map (fun c => c.leaveDaysUsed)).sum ≤ curW ∧
        (recon sorted nc memo fuel curI curK curW).Pairwise
          (fun a b => a.endIdx < b.startIdx) ∧
        (∀ c ∈ recon sorted nc memo fuel curI curK curW,
          ∃ p, curI ≤ p ∧ p < sorted.length ∧ c = sorted.getD p default) := by
  have hmono : ∀ p q, p ≤ q → q < sorted.length →
      (sorted.getD p default).startIdx ≤ (sorted.getD q default).startIdx := by
    intro p q hpq hq
    rcases Nat.eq_or_lt_of_le hpq with rfl | hlt
    · exact le_refl _
    · have hp : p < sorted.length := by omega
      rw [List.getD_eq_getElem sorted default hp, List.getD_eq_getElem sorted default hq]
      exact List.pairwise_iff_getElem.mp hsort p q hp hq hlt
  intro fuel
  induction fuel with
  | zero => intro curI curK curW; simp [recon]
  | succ fz ih =>
    intro curI curK curW
    rw [recon]
    split
    case isFalse h => simp
    case isTrue h =>
    by_cases htake :
        ((if (sorted.getD curI default).leaveDaysUsed ≤ curW ∧
            memo (nc.getD curI 0) (curK - 1) (curW - (sorted.getD curI default).leaveDaysUsed) ≠
              -1 then
          (sorted.getD curI default).totalDaysOff +
            memo (nc.getD curI 0) (curK - 1) (curW - (sorted.getD curI default).leaveDaysUsed)
        else -2) ≠ -2 ∧
        (if (sorted.getD curI default).leaveDaysUsed ≤ curW ∧
            memo (nc.getD curI 0) (curK - 1) (curW - (sorted.getD curI default).leaveDaysUsed) ≠
              -1 then
          (sorted.getD curI default).totalDaysOff +
            memo (nc.getD curI 0) (curK - 1) (curW - (sorted.getD curI default).leaveDaysUsed)
        else -2) ≥ memo (curI + 1) curK curW)
    · rw [if_pos htake]
      have hcost : (sorted.getD curI default).leaveDaysUsed ≤ curW := by
        rcases htake with ⟨hne, _⟩
        by_cases hcond : (sorted.getD curI default).leaveDaysUsed ≤ curW ∧
            memo (nc.getD curI 0) (curK - 1)
              (curW - (sorted.getD curI default).leaveDaysUsed) ≠ -1
        · exact hcond.1
        · rw [if_neg hcond] at hne; simp at hne
      have hrec := ih (nc.getD curI 0) (curK - 1)
        (curW - (sorted.getD curI default).leaveDaysUsed)
      have hncI := hnc curI h.2
      refine ⟨?_, ?_, ?_⟩
      · have := hrec.1
        simp only [List.map_cons, List.sum_cons]
        omega
      · rw [List.pairwise_cons]
        refine ⟨?_, hrec.2.1⟩
        intro c hc
        obtain ⟨p, hp1, hp2, rfl⟩ := hrec.2.2 c hc
        rcases hncI.2 with hbig | hsep
        · omega
        · exact lt_of_lt_of_le hsep (hmono _ _ hp1 hp2)
      · intro c hc
        rcases List.mem_cons.mp hc with rfl | hc
        · exact ⟨curI, le_refl _, h.2, rfl⟩
        · obtain ⟨p, hp1, hp2, he⟩ := hrec.2.2 c hc
          exact ⟨p, by omega, hp2, he⟩
    · rw [if_neg htake]
      have hrec := ih (curI + 1) curK curW
      refine ⟨hrec.1, hrec.2.1, ?_⟩
      intro c hc
      obtain ⟨p, hp1, hp2, he⟩ := hrec.2.2 c hc
      exact ⟨p, by omega, hp2, he⟩

/-- The w selected by the inner search never exceeds the allowance. -/
theorem searchW_le (memo : Nat → Nat → Nat → Int) (k W : Nat) :
    (searchW memo k W).2 ≤ (W : Int) := by
  have H : ∀ (l : List Nat) (init : ℚ × Int), (∀ w0 ∈ l, w0 + 1 ≤ W) → init.2 ≤ (W : Int) →
      (l.foldl (fun best w0 =>
        let w := w0 + 1
        let totalOff := memo 0 k w
        if totalOff > 0 then
          let s := computeScore totalOff w
          if s > best.1 then (s, (w : Int)) else best
        else best) init).2 ≤ (W : Int) := by
    intro l
    induction l with
    | nil => intro init _ h; exact h
    | cons a t iht =>
      intro init hmem h
      refine iht _ (fun w0 hw0 => hmem w0 (List.mem_cons_of_mem _ hw0)) ?_
      have ha := hmem a (List.mem_cons_self _ _)
      dsimp only
      split
      · split
        · simpa using by exact_mod_cast ha
        · exact h
      · exact h
  refine H _ _ ?_ ?_
  · intro w0 hw0
    have := List.mem_range.mp hw0
    omega
  · show (-1 : Int) ≤ (W : Int)
    omega

/-- The w of the chosen (k, w) pair never exceeds the allowance. -/
theorem findKW_le (memo : Nat → Nat → Nat → Int) (W : Nat) :
    (findKW memo W).2 ≤ (W : Int) := by
  unfold findKW
  dsimp only
  split
  · exact searchW_le memo 3 W
  · split
    · exact searchW_le memo 2 W
    · split
      · exact searchW_le memo 1 W
      · show (-1 : Int) ≤ (W : Int)
        omega

/-- Safety of findBestCombination: its output is strictly separated (up to
symmetry, after the final sort) and its leave-day costs sum to at most the
allowance.  This holds for every candidate list and allowance. -/
theorem findBestCombination_safe (candidates : List Cand) (allowance : Nat) :
    (findBestCombination candidates allowance).Pairwise
        (fun a b => a.endIdx < b.startIdx ∨ b.endIdx < a.startIdx) ∧
      ((findBestCombination candidates allowance).map (fun c => c.leaveDaysUsed)).sum ≤
        allowance := by
  unfold findBestCombination
  split
  case isTrue h => simp
  case isFalse h =>
  dsimp only
  set sorted := candidates.mergeSort startAsc with hsorted
  set nc := nextCompat sorted with hnc
  set memo := fun i k w => memoF sorted nc (sorted.length + 1) i k w with hmemo
  set kw := findKW memo allowance with hkw
  have hsort : sorted.Pairwise (fun a b => a.startIdx ≤ b.startIdx) := by
    have := List.sorted_mergeSort startAsc_trans startAsc_total candidates
    exact this.imp (by intro a b hab; simpa [startAsc] using hab)
  have hncspec : ∀ k, k < sorted.length →
      k < nc.getD k 0 ∧
        (sorted.length ≤ nc.getD k 0 ∨
          (sorted.getD k default).endIdx < (sorted.getD (nc.getD k 0) default).startIdx) :=
    fun k hk => nextCompat_spec sorted k hk
  set combo := (if kw.1 ≠ -1 then
      recon sorted nc memo (sorted.length + 1) 0 kw.1.toNat kw.2.toNat else []) with hcombo
  have hcsafe : ((combo.map (fun c => c.leaveDaysUsed)).sum ≤ kw.2.toNat) ∧
      combo.Pairwise (fun a b => a.endIdx < b.startIdx) := by
    rw [hcombo]
    split
    · have := recon_spec sorted nc memo hsort hncspec (sorted.length + 1) 0 kw.1.toNat
        kw.2.toNat
      exact ⟨this.1, this.2.1⟩
    · simp
  have hperm := List.mergeSort_perm combo startAsc
  constructor
  · refine (hperm.pairwise_iff ?_).mpr ?_
    · intro x y hxy
      exact hxy.symm
    · exact hcsafe.2.imp (fun hab => Or.inl hab)
  · have hsum : ((combo.mergeSort startAsc).map (fun c => c.leaveDaysUsed)).sum =
        ((combo.map (fun c => c.leaveDaysUsed)).sum) := by
      exact List.Perm.sum_eq (hperm.map (fun c => c.leaveDaysUsed))
    rw [hsum]
    have hW := findKW_le memo allowance
    rw [← hkw] at hW
    have h2 : kw.2.toNat ≤ allowance := by omega
    have h3 := hcsafe.1
    omega

/-- C1.  For every year, allowance, environment and fuel, the plan returned
by findOptimalPlan consists of pairwise non-overlapping blocks, and the sum
of leaveDaysUsed over the returned blocks is at most the allowance. -/
theorem c1_plan_nonoverlapping_within_allowance (env : Env) (fuel year allowance : Nat) :
    (findOptimalPlan fuel year allowance env).Pairwise (fun b1 b2 => ¬overlap b1 b2) ∧
      ((findOptimalPlan fuel year allowance env).map (fun b => b.leaveDaysUsed)).sum ≤
        allowance := by
  have hsafe := findBestCombination_safe
    (selectTopCandidates (generateAllCandidates fuel year allowance env)) allowance
  constructor
  · refine List.Pairwise.map _ ?_ hsafe.1
    intro a b hab
    intro hov
    unfold overlap at hov
    simp only [dateOfIdx] at hov
    rcases hab with h | h
    · omega
    · omega
  · rw [show (findOptimalPlan fuel year allowance env).map (fun b => b.leaveDaysUsed) =
        (findBestCombination
            (selectTopCandidates (generateAllCandidates fuel year allowance env))
            allowance).map (fun c => c.leaveDaysUsed) from by
      unfold findOptimalPlan
      dsimp only
      rw [List.map_map]
      rfl]
    exact hsafe.2

/-! ## C7: year-over-year comparison -/

/-- The initial value is a lower bound of a left max fold. -/
theorem foldl_max_ge_init : ∀ (xs : List Int) (x : Int), x ≤ xs.foldl max x := by
  intro xs
  induction xs with
  | nil => intro x; exact le_refl x
  | cons a t ih =>
    intro x
    exact le_trans (le_max_left x a) (ih (max x a))

/-- Every member is a lower bound of a left max fold. -/
theorem foldl_max_ge_mem : ∀ (xs : List Int) (x y : Int), y ∈ xs → y ≤ xs.foldl max x := by
  intro xs
  induction xs with
  | nil => intro x y hy; simp at hy
  | cons a t ih =>
    intro x y hy
    rcases List.mem_cons.mp hy with rfl | hy
    · exact le_trans (le_max_right x y) (foldl_max_ge_init t (max x y))
    · exact ih (max x a) y hy

/-- A left max fold is attained by the initial value or a member. -/
theorem foldl_max_mem : ∀ (xs : List Int) (x : Int),
    xs.foldl max x = x ∨ xs.foldl max x ∈ xs := by
  intro xs
  induction xs with
  | nil => intro x; exact Or.inl rfl
  | cons a t ih =>
    intro x
    rcases ih (max x a) with h | h
    · rcases max_choice x a with hm | hm
      · exact Or.inl (by rw [List.foldl_cons, h, hm])
      · exact Or.inr (by rw [List.foldl_cons, h, hm]; exact List.mem_cons_self a t)
    · exact Or.inr (List.mem_cons_of_mem a h)

/-- getLongestBlockDays is the maximum totalDaysOff of the plan (0 when the
plan is empty). -/
theorem getLongestBlockDays_spec (plan : List Block) :
    (∀ b ∈ plan, b.totalDaysOff ≤ getLongestBlockDays plan) ∧
      (plan = [] → getLongestBlockDays plan = 0) ∧
      (plan ≠ [] → ∃ b ∈ plan, getLongestBlockDays plan = b.totalDaysOff) := by
  unfold getLongestBlockDays
  cases plan with
  | nil => simp
  | cons b0 rest =>
    refine ⟨?_, by simp, ?_⟩
    · intro b hb
      rcases List.mem_cons.mp hb with rfl | hb
      · exact foldl_max_ge_init _ _
      · exact foldl_max_ge_mem _ _ _ (List.mem_map_of_mem _ hb)
    · intro _
      rcases foldl_max_mem (rest.map (fun b => b.totalDaysOff)) b0.totalDaysOff with h | h
      · exact ⟨b0, List.mem_cons_self _ _, h⟩
      · obtain ⟨b, hb, he⟩ := List.mem_map.mp h
        exact ⟨b, List.mem_cons_of_mem _ hb, he.symm⟩

/-- C7.  For a rule-based region, getYearComparison reports currentBest and
previousBest as the largest totalDaysOff among the blocks of the optimal
plans of the year and the preceding year (0 for an empty plan), deltaPercent
as the signed percentage change of currentBest relative to previousBest
(none when previousBest is 0), and direction more exactly when deltaPercent
exceeds 0.5, less exactly when below -0.5, and same otherwise. -/
theorem c7_year_comparison (env : Env) (fuel year allowance : Nat)
    (hrule : isDatasetLocation env.region = false) :
    ∃ c, getYearComparison fuel year allowance env = some c ∧
      c.currentYear = year ∧
      c.previousYear = year - 1 ∧
      c.currentBest = getLongestBlockDays (findOptimalPlan fuel year allowance env) ∧
      c.previousBest = getLongestBlockDays (findOptimalPlan fuel (year - 1) allowance env) ∧
      (∀ b ∈ findOptimalPlan fuel year allowance env, b.totalDaysOff ≤ c.currentBest) ∧
      (findOptimalPlan fuel year allowance env = [] → c.currentBest = 0) ∧
      (findOptimalPlan fuel year allowance env ≠ [] →
        ∃ b ∈ findOptimalPlan fuel year allowance env, c.currentBest = b.totalDaysOff) ∧
      (∀ b ∈ findOptimalPlan fuel (year - 1) allowance env,
        b.totalDaysOff ≤ c.previousBest) ∧
      (findOptimalPlan fuel (year - 1) allowance env = [] → c.previousBest = 0) ∧
      (findOptimalPlan fuel (year - 1) allowance env ≠ [] →
        ∃ b ∈ findOptimalPlan fuel (year - 1) allowance env,
          c.previousBest = b.totalDaysOff) ∧
      (0 < c.previousBest →
        c.deltaPercent =
          some (((c.currentBest - c.previousBest : Int) : ℚ) / (c.previousBest : ℚ) * 100)) ∧
      (c.previousBest ≤ 0 → c.deltaPercent = none) ∧
      (c.direction = Direction.more ↔ ∃ dp, c.deltaPercent = some dp ∧ dp > 1 / 2) ∧
      (c.direction = Direction.less ↔ ∃ dp, c.deltaPercent = some dp ∧ dp < -(1 / 2)) := by
  have hcond : ¬(isDatasetLocation env.region = true ∧
      (env.dataset.isNone ∨
        !(hasHolidayDataForYear env env.region year &&
          hasHolidayDataForYear env env.region (year - 1)) = true)) := by
    simp [hrule]
  unfold getYearComparison
  rw [if_neg (by simpa using hcond)]
  dsimp only
  set cur := getLongestBlockDays (findOptimalPlan fuel year allowance env) with hcur
  set prev := getLongestBlockDays (findOptimalPlan fuel (year - 1) allowance env) with hprev
  have hcs := getLongestBlockDays_spec (findOptimalPlan fuel year allowance env)
  have hps := getLongestBlockDays_spec (findOptimalPlan fuel (year - 1) allowance env)
  rw [← hcur] at hcs
  rw [← hprev] at hps
  refine ⟨_, rfl, rfl, rfl, rfl, rfl, hcs.1, hcs.2.1, hcs.2.2, hps.1, hps.2.1, hps.2.2,
    ?_, ?_, ?_, ?_⟩
  · intro h
    dsimp only at h ⊢
    rw [if_pos h]
  · intro h
    dsimp only at h ⊢
    rw [if_neg (by omega)]
  · dsimp only
    by_cases hp : prev > 0
    · rw [if_pos hp]
      dsimp only
      by_cases h1 : ((cur - prev : Int) : ℚ) / (prev : ℚ) * 100 > 1 / 2
      · simp only [h1, if_pos h1]
        constructor
        · intro _
          exact ⟨_, rfl, h1⟩
        · intro _
          rfl
      · rw [if_neg h1]
        constructor
        · intro hd
          split at hd <;> simp_all
        · rintro ⟨dp, hdp, hgt⟩
          rw [Option.some_inj] at hdp
          exact absurd (hdp ▸ hgt) h1
    · rw [if_neg hp]
      dsimp only
      constructor
      · intro hd
        simp at hd
      · rintro ⟨dp, hdp, _⟩
        simp at hdp
  · dsimp only
    by_cases hp : prev > 0
    · rw [if_pos hp]
      dsimp only
      by_cases h1 : ((cur - prev : Int) : ℚ) / (prev : ℚ) * 100 > 1 / 2
      · rw [if_pos h1]
        constructor
        · intro hd
          simp at hd
        · rintro ⟨dp, hdp, hlt⟩
          rw [Option.some_inj] at hdp
          subst hdp
          exact absurd h1 (by push_neg; exact le_of_lt (by linarith))
      · rw [if_neg h1]
        by_cases h2 : ((cur - prev : Int) : ℚ) / (prev : ℚ) * 100 < -(1 / 2)
        · rw [if_pos h2]
          exact ⟨fun _ => ⟨_, rfl, h2⟩, fun _ => rfl⟩
        · rw [if_neg h2]
          constructor
          · intro hd
            simp at hd
          · rintro ⟨dp, hdp, hlt⟩
            rw [Option.some_inj] at hdp
            exact absurd (hdp ▸ hlt) h2
    · rw [if_neg hp]
      dsimp only
      constructor
      · intro hd
        simp at hd
      · rintro ⟨dp, hdp, _⟩
        simp at hdp

/-- Witness for C7 at a concrete rule-based environment: the comparison is
returned (not none). -/
theorem c7_year_comparison_witness : (getYearComparison 1 1 0 ewDefaultEnv).isSome = true := by
  obtain ⟨c, hc, -⟩ := c7_year_comparison ewDefaultEnv 1 1 0 (by decide)
  rw [hc]
  rfl

/-- Witness for C6 at the empty candidate list. -/
theorem c6_select_top_candidates_witness : (selectTopCandidates []).length ≤ 150 :=
  (c6_select_top_candidates []).1

/-! ## C4 and C5: structure of the generated holiday list -/

/-- dow is in [0, 7). -/
theorem dow_bounds (r : Int) : 0 ≤ dow r ∧ dow r < 7 := by
  unfold dow
  omega

/-- dow of a shifted day. -/
theorem dow_add (r k : Int) : dow (r + k) = (dow r + k) % 7 := by
  unfold dow
  omega

/-- The Boolean leap test as arithmetic. -/
theorem isLeapYear_iff (y : Nat) :
    isLeapYear y = true ↔ ((y % 4 = 0 ∧ y % 100 ≠ 0) ∨ y % 400 = 0) := by
  unfold isLeapYear
  simp only [Bool.or_eq_true, Bool.and_eq_true, beq_iff_eq, bne_iff_ne]

/-- createHoliday keeps the date within [r, r+3], never lands on Saturday or
Sunday, and shifts at most 2 under the next-monday rule. -/
theorem createHoliday_spec (r : Int) (nm : String) (rule : SubstRule) :
    r ≤ (createHoliday r nm rule).date ∧ (createHoliday r nm rule).date ≤ r + 3 ∧
      dow (createHoliday r nm rule).date ≠ 0 ∧ dow (createHoliday r nm rule).date ≠ 6 ∧
      (rule = .nextMonday → (createHoliday r nm rule).date ≤ r + 2) := by
  have hb := dow_bounds r
  unfold createHoliday
  dsimp only
  by_cases h0 : dow r == 0
  · rw [if_pos h0]
    simp only [beq_iff_eq] at h0
    cases rule with
    | nextMonday =>
      dsimp only
      refine ⟨by omega, by omega, ?_, ?_, fun _ => by omega⟩ <;> (rw [dow_add]; omega)
    | nextTuesday =>
      dsimp only
      refine ⟨by omega, by omega, ?_, ?_, fun _ => by omega⟩ <;> (rw [dow_add]; omega)
  · rw [if_neg h0]
    by_cases h6 : dow r == 6
    · rw [if_pos h6]
      simp only [beq_iff_eq] at h6
      cases rule with
      | nextMonday =>
        dsimp only
        refine ⟨by omega, by omega, ?_, ?_, fun _ => by omega⟩ <;> (rw [dow_add]; omega)
      | nextTuesday =>
        dsimp only
        refine ⟨by omega, by omega, ?_, ?_, fun h => by simp at h⟩ <;> (rw [dow_add]; omega)
    · rw [if_neg h6]
      simp only [beq_iff_eq] at h0 h6
      exact ⟨by omega, by omega, h0, h6, fun _ => by omega⟩

/-- Correctness of the forward weekday search with sufficient fuel. -/
theorem searchDowFwd_ok (t : Int) :
    ∀ (fuel : Nat) (r : Int), (∃ k : Nat, k < fuel ∧ dow (r + k) = t) →
      dow (searchDowFwd t fuel r) = t ∧ r ≤ searchDowFwd t fuel r ∧
        searchDowFwd t fuel r ≤ r + fuel - 1 := by
  intro fuel
  induction fuel with
  | zero => intro r h; obtain ⟨k, hk, _⟩ := h; omega
  | succ n ih =>
    intro r h
    rw [searchDowFwd]
    by_cases h0 : (dow r == t) = true
    · rw [if_pos h0]
      simp only [beq_iff_eq] at h0
      exact ⟨h0, by omega, by omega⟩
    · rw [if_neg h0]
      simp only [beq_iff_eq] at h0
      obtain ⟨k, hk, hdk⟩ := h
      obtain ⟨k2, rfl⟩ : ∃ k2, k = k2 + 1 := by
        cases k with
        | zero => exfalso; apply h0; simpa using hdk
        | succ k2 => exact ⟨k2, rfl⟩
      have hcast : r + 1 + (k2 : Int) = r + ((k2 + 1 : Nat) : Int) := by push_cast; ring
      obtain ⟨ha, hb2, hc2⟩ := ih (r + 1) ⟨k2, by omega, by rw [hcast]; exact hdk⟩
      exact ⟨ha, by omega, by omega⟩

/-- Correctness of the backward weekday search with sufficient fuel. -/
theorem searchDowBwd_ok (t : Int) :
    ∀ (fuel : Nat) (r : Int), (∃ k : Nat, k < fuel ∧ dow (r - k) = t) →
      dow (searchDowBwd t fuel r) = t ∧ searchDowBwd t fuel r ≤ r ∧
        r - fuel + 1 ≤ searchDowBwd t fuel r := by
  intro fuel
  induction fuel with
  | zero => intro r h; obtain ⟨k, hk, _⟩ := h; omega
  | succ n ih =>
    intro r h
    rw [searchDowBwd]
    by_cases h0 : (dow r == t) = true
    · rw [if_pos h0]
      simp only [beq_iff_eq] at h0
      exact ⟨h0, by omega, by omega⟩
    · rw [if_neg h0]
      simp only [beq_iff_eq] at h0
      obtain ⟨k, hk, hdk⟩ := h
      obtain ⟨k2, rfl⟩ : ∃ k2, k = k2 + 1 := by
        cases k with
        | zero => exfalso; apply h0; simpa using hdk
        | succ k2 => exact ⟨k2, rfl⟩
      have hcast : r - 1 - (k2 : Int) = r - ((k2 + 1 : Nat) : Int) := by push_cast; ring
      obtain ⟨ha, hb2, hc2⟩ := ih (r - 1) ⟨k2, by omega, by rw [hcast]; exact hdk⟩
      exact ⟨ha, by omega, by omega⟩

/-- Any weekday occurs within 7 consecutive days going forward. -/
theorem exists_dow_fwd (t : Int) (ht : 0 ≤ t ∧ t < 7) (r : Int) :
    ∃ k : Nat, k < 7 ∧ dow (r + k) = t := by
  have hb := dow_bounds r
  refine ⟨((t - dow r) % 7).toNat, ?_, ?_⟩
  · omega
  · rw [dow_add]
    omega

/-- Any weekday occurs within 7 consecutive days going backward. -/
theorem exists_dow_bwd (t : Int) (ht : 0 ≤ t ∧ t < 7) (r : Int) :
    ∃ k : Nat, k < 7 ∧ dow (r - k) = t := by
  have hb := dow_bounds r
  refine ⟨((dow r - t) % 7).toNat, ?_, ?_⟩
  · omega
  · rw [show r - (((dow r - t) % 7).toNat : Int) = r + (-(((dow r - t) % 7).toNat : Int)) by
      ring, dow_add]
    omega

/-- The month of Easter is March or April. -/
theorem easterMonth_eq34 (y : Nat) : easterMonth y = 3 ∨ easterMonth y = 4 := by
  unfold easterMonth
  dsimp only
  omega

/-- Joint bounds from the Easter algorithm: writing X for the inner
expression, X = 31 * month + (day - 1) lies in [114, 149]. -/
theorem easter_key (y : Nat) :
    114 ≤ 31 * easterMonth y + (easterDay y - 1) ∧
      31 * easterMonth y + (easterDay y - 1) ≤ 149 ∧ 1 ≤ easterDay y := by
  unfold easterMonth easterDay
  dsimp only
  omega

/-- The date of Easter lies between day-of-year offsets 80 and 115 (plus
the leap correction), i.e. from March 22 to April 26. -/
theorem getEasterDate_bounds (y : Nat) :
    jan1Rd y + 80 + (if isLeapYear y then (1 : Int) else 0) ≤ getEasterDate y ∧
      getEasterDate y ≤ jan1Rd y + 115 + (if isLeapYear y then (1 : Int) else 0) := by
  have hm := easterMonth_eq34 y
  have hk := easter_key y
  unfold getEasterDate toRd
  rcases hm with h3 | h4
  · rw [h3] at hk ⊢
    have hdb : daysBeforeMonth y 3 = 59 + (if isLeapYear y then 1 else 0) := rfl
    rw [hdb]
    by_cases hl : isLeapYear y = true
    · simp only [if_pos hl]
      omega
    · simp only [if_neg hl]
      omega
  · rw [h4] at hk ⊢
    have hdb : daysBeforeMonth y 4 = 90 + (if isLeapYear y then 1 else 0) := rfl
    rw [hdb]
    by_cases hl : isLeapYear y = true
    · simp only [if_pos hl]
      omega
    · simp only [if_neg hl]
      omega


/-- Purely arithmetic core of the Easter weekday proof, split by the leap
classification of the year; the goal is the mod-7 congruence of the day
number in the decomposed digits of the year. -/
theorem easter_arith_branches (y q4 q100 q400 c u a b v w L : Nat)
    (hy : 1 ≤ y)
    (hq4 : q4 = (y - 1) / 4) (hq100 : q100 = (y - 1) / 100) (hq400 : q400 = (y - 1) / 400)
    (hyc : y = 100 * c + u) (hu : u < 100)
    (hcab : c = 4 * a + b) (hb : b < 4)
    (huvw : u = 4 * v + w) (hw : w < 4)
    (hL1 : (y % 4 = 0 ∧ y % 100 ≠ 0) ∨ y % 400 = 0 → L = 1)
    (hL0 : ¬((y % 4 = 0 ∧ y % 100 ≠ 0) ∨ y % 400 = 0) → L = 0) :
    (365 * (y - 1) + q4 + q400 + L + (32 + 2 * b + 2 * v - w) + 81) % 7 = q100 % 7 := by
  have hy4 : y % 4 = w := by omega
  have hy100 : y % 100 = u := by omega
  have hy400 : y % 400 = 100 * b + u := by omega
  by_cases hcase : (y % 4 = 0 ∧ y % 100 ≠ 0) ∨ y % 400 = 0
  · have hL := hL1 hcase
    subst hL
    rcases hcase with ⟨h4, h100⟩ | h400
    · -- leap by mod 4, century not divisible
      have hw0 : w = 0 := by omega
      have hu1 : 1 ≤ u := by omega
      have e4 : q4 = 25 * c + v - 1 := by omega
      have e100 : q100 = c := by omega
      have e400 : q400 = a := by omega
      omega
    · -- leap by mod 400
      have hb0 : b = 0 ∧ u = 0 ∧ v = 0 ∧ w = 0 := by omega
      obtain ⟨hb0, hu0, hv0, hw0⟩ := hb0
      have e4 : q4 = 100 * a - 1 := by omega
      have e100 : q100 = 4 * a - 1 := by omega
      have e400 : q400 = a - 1 := by omega
      have ha1 : 1 ≤ a := by omega
      omega
  · have hL := hL0 hcase
    subst hL
    push_neg at hcase
    by_cases h4 : y % 4 = 0
    · -- century year not divisible by 400
      have h100 : y % 100 = 0 := hcase.1 h4
      have hu0 : u = 0 ∧ v = 0 ∧ w = 0 := by omega
      obtain ⟨hu0, hv0, hw0⟩ := hu0
      have hb1 : 1 ≤ b := by omega
      have hc1 : 1 ≤ c := by omega
      have e4 : q4 = 25 * c - 1 := by omega
      have e100 : q100 = c - 1 := by omega
      have e400 : q400 = a := by omega
      omega
    · -- ordinary non-leap year
      have hw1 : 1 ≤ w := by omega
      have hu1 : 1 ≤ u := by omega
      have e4 : q4 = 25 * c + v := by omega
      have e100 : q100 = c := by omega
      have e400 : q400 = a := by omega
      omega

set_option maxHeartbeats 1600000 in
theorem easter_arith (y q4 q100 q400 c u g sk lun sol e lc d mc L X : Nat)
    (hy : 1 ≤ y)
    (hq4 : q4 = (y - 1) / 4) (hq100 : q100 = (y - 1) / 100) (hq400 : q400 = (y - 1) / 400)
    (hc : c = y / 100) (hu : u = y % 100) (hg : g = y % 19)
    (hsk : sk = c / 4) (hlun : lun = (c + 8) / 25) (hsol : sol = (c - lun + 1) / 3)
    (he : e = (19 * g + c - sk - sol + 15) % 30)
    (hlc : lc = u / 4)
    (hd : d = (32 + 2 * (c % 4) + 2 * lc - e - u % 4) % 7)
    (hmc : mc = (g + 11 * e + 22 * d) / 451)
    (hX : X = e + d - 7 * mc + 114)
    (hL1 : (y % 4 = 0 ∧ y % 100 ≠ 0) ∨ y % 400 = 0 → L = 1)
    (hL0 : ¬((y % 4 = 0 ∧ y % 100 ≠ 0) ∨ y % 400 = 0) → L = 0) :
    (365 * (y - 1) + q4 - q100 + q400 + L + (X - 33)) % 7 = 0 := by
  have hebound : e ≤ 29 := by omega
  have hdbound : d ≤ 6 := by omega
  have hgbound : g ≤ 18 := by omega
  have hmc1 : 7 * mc ≤ e + d := by
    rcases Nat.eq_zero_or_pos mc with h0 | h1
    · omega
    · have h451 : 451 ≤ g + 11 * e + 22 * d := by
        by_contra hcon
        push_neg at hcon
        have : mc = 0 := by omega
        omega
      omega
  -- the day-correction definition makes e + d congruent to a value free of e
  have hm2 : (e + d) % 7 = (32 + 2 * (c % 4) + 2 * lc - u % 4) % 7 := by
    have hw : u % 4 ≤ 3 := by omega
    omega
  clear he hd hmc hg hsk hlun hsol
  -- name the digit decomposition of the year
  obtain ⟨a, b, hcab, hb⟩ : ∃ a b, c = 4 * a + b ∧ b < 4 := ⟨c / 4, c % 4, by omega, by omega⟩
  obtain ⟨v, w, huvw, hw⟩ : ∃ v w, u = 4 * v + w ∧ w < 4 := ⟨u / 4, u % 4, by omega, by omega⟩
  have hyc : y = 100 * c + u ∧ u < 100 := by omega
  have hlc2 : lc = v := by omega
  have hbc : c % 4 = b := by omega
  have hwu : u % 4 = w := by omega
  rw [hbc, hlc2, hwu] at hm2
  -- reduce the goal to a congruence in the digits
  suffices hS : (365 * (y - 1) + q4 + q400 + L + (32 + 2 * b + 2 * v - w) + 81) % 7 =
      q100 % 7 by
    omega
  exact easter_arith_branches y q4 q100 q400 c u a b v w L hy hq4 hq100 hq400 hyc.1 hyc.2
    hcab hb huvw hw hL1 hL0


set_option maxHeartbeats 1600000 in
/-- Easter Sunday, as computed by getEasterDate, falls on a Sunday for
every year of the common era: the day-correction term of the algorithm is
built to make it so, and the Gregorian leap structure does the rest. -/
theorem getEasterDate_dow (y : Nat) (hy : 1 ≤ y) : dow (getEasterDate y) = 0 := by
  have hL1 : (y % 4 = 0 ∧ y % 100 ≠ 0) ∨ y % 400 = 0 →
      (if isLeapYear y then (1 : Nat) else 0) = 1 := by
    intro h
    rw [if_pos ((isLeapYear_iff y).mpr h)]
  have hL0 : ¬((y % 4 = 0 ∧ y % 100 ≠ 0) ∨ y % 400 = 0) →
      (if isLeapYear y then (1 : Nat) else 0) = 0 := by
    intro h
    rw [if_neg (fun hb => h ((isLeapYear_iff y).mp hb))]
  have harith := easter_arith y _ _ _ _ _ _ _ _ _ _ _ _ _
    (if isLeapYear y then (1 : Nat) else 0) _ hy rfl rfl rfl rfl rfl rfl rfl rfl rfl rfl rfl
    rfl rfl rfl hL1 hL0
  rcases easterMonth_eq34 y with h3 | h4
  · have h3u := h3
    unfold easterMonth at h3u
    dsimp only at h3u
    unfold getEasterDate toRd dow jan1Rd
    rw [h3]
    have hdb : daysBeforeMonth y 3 = 59 + (if isLeapYear y then 1 else 0) := rfl
    rw [hdb]
    unfold easterDay
    dsimp only
    omega
  · have h4u := h4
    unfold easterMonth at h4u
    dsimp only at h4u
    unfold getEasterDate toRd dow jan1Rd
    rw [h4]
    have hdb : daysBeforeMonth y 4 = 90 + (if isLeapYear y then 1 else 0) := rfl
    rw [hdb]
    unfold easterDay
    dsimp only
    omega

/-- The leap-day correction as an integer. -/
def leapI (y : Nat) : Int := if isLeapYear y then 1 else 0

/-- leapI is 0 or 1. -/
theorem leapI_bounds (y : Nat) : 0 ≤ leapI y ∧ leapI y ≤ 1 := by
  unfold leapI
  split <;> omega

/-- toRd as an offset from January 1. -/
theorem toRd_as_offset (y m d : Nat) :
    toRd y m d = jan1Rd y + ((daysBeforeMonth y m : Nat) : Int) + d - 1 := rfl

/-- Cast values of daysBeforeMonth for the months the holiday rules use. -/
theorem dbm_int (y : Nat) :
    ((daysBeforeMonth y 1 : Nat) : Int) = 0 ∧
      ((daysBeforeMonth y 3 : Nat) : Int) = 59 + leapI y ∧
      ((daysBeforeMonth y 5 : Nat) : Int) = 120 + leapI y ∧
      ((daysBeforeMonth y 6 : Nat) : Int) = 151 + leapI y ∧
      ((daysBeforeMonth y 7 : Nat) : Int) = 181 + leapI y ∧
      ((daysBeforeMonth y 8 : Nat) : Int) = 212 + leapI y ∧
      ((daysBeforeMonth y 9 : Nat) : Int) = 243 + leapI y ∧
      ((daysBeforeMonth y 11 : Nat) : Int) = 304 + leapI y ∧
      ((daysBeforeMonth y 12 : Nat) : Int) = 334 + leapI y := by
  unfold daysBeforeMonth leapI
  by_cases h : isLeapYear y = true <;> simp [h]

/-- Specification of findDayInMonth for position first: the result has the
requested weekday and lies in the first seven days of the month. -/
theorem findDayInMonth_first_spec (y m : Nat) (t : Int) (ht : 0 ≤ t ∧ t < 7) :
    dow (findDayInMonth y m t true) = t ∧
      toRd y (m + 1) 1 ≤ findDayInMonth y m t true ∧
      findDayInMonth y m t true ≤ toRd y (m + 1) 1 + 6 := by
  have hex := exists_dow_fwd t ht (toRd y (m + 1) 1)
  have := searchDowFwd_ok t 7 (toRd y (m + 1) 1) hex
  unfold findDayInMonth
  rw [if_pos rfl]
  exact ⟨this.1, this.2.1, by omega⟩

/-- Specification of findDayInMonth for position last: the result has the
requested weekday and lies in the last seven days of the month. -/
theorem findDayInMonth_last_spec (y m : Nat) (t : Int) (ht : 0 ≤ t ∧ t < 7) :
    dow (findDayInMonth y m t false) = t ∧
      toRd y (m + 2) 1 - 7 ≤ findDayInMonth y m t false ∧
      findDayInMonth y m t false ≤ toRd y (m + 2) 1 - 1 := by
  have hex := exists_dow_bwd t ht (toRd y (m + 2) 1 - 1)
  have := searchDowBwd_ok t 7 (toRd y (m + 2) 1 - 1) hex
  unfold findDayInMonth
  rw [if_neg (by simp)]
  exact ⟨this.1, by omega, by omega⟩
